import Mathlib

/-!
Verification of the Neo4j adapter for Auth.js
(`src/packages/adapter-neo4j/src/index.ts`).

The development shallowly embeds the adapter:

* the type-coercion layer `format.to` / `format.from` together with its
  helpers `isoDateRE` / `isDate` and the platform functions they call
  (`Date.prototype.toISOString`, `Date.parse`, the neo4j `Integer`
  helpers `isInt` / `integer.inSafeRange` / `toNumber` / `toString`);
* a property-graph store (nodes with property maps, `HAS_ACCOUNT` /
  `HAS_SESSION` relationships) and, on top of it, the adapter operations,
  each translated from the Cypher statement the source sends through the
  `client(session)` facade, including the facade's behaviour of nesting
  the outbound-coerced parameters under `$data` and of decoding the first
  result row.

JavaScript instants (`Date` values) are modelled by their signed count of
milliseconds since the Unix epoch, exactly as ECMAScript defines them.
-/

namespace NeoAdapter

/-! ## Calendar arithmetic (model of the ECMAScript `Date` field conversions)

ECMAScript time values are integers counting milliseconds from the epoch in
the proleptic Gregorian calendar; `Day(t) = floor(t / 86400000)` and the
field extraction functions are specified in ES §21.4.1.  Integer division
and remainder on `Int` below are the euclidean ones (`(-1) / 86400000 = -1`,
remainder non-negative), which agree with the `floor`/`modulo` operations
the ES specification uses. -/

def isLeap (y : Int) : Bool := y % 4 == 0 && (y % 100 != 0 || y % 400 == 0)

def daysInYearN (y : Int) : Nat := if isLeap y then 366 else 365

def monthLengths (leap : Bool) : List Nat :=
  [31, if leap then 29 else 28, 31, 30, 31, 30, 31, 31, 30, 31, 30, 31]

theorem daysInYearN_ge (y : Int) : 365 ≤ daysInYearN y := by
  unfold daysInYearN; split <;> omega

theorem daysInYearN_le (y : Int) : daysInYearN y ≤ 366 := by
  unfold daysInYearN; split <;> omega

theorem monthLengths_sum (y : Int) :
    (monthLengths (isLeap y)).sum = daysInYearN y := by
  unfold monthLengths daysInYearN
  cases isLeap y <;> simp

/-- Number of days in the `n` consecutive years `y, y+1, …, y+n-1`. -/
def sumYears (y : Int) : Nat → Nat
  | 0 => 0
  | n + 1 => daysInYearN y + sumYears (y + 1) n

theorem sumYears_succ_top (y : Int) (n : Nat) :
    sumYears y (n + 1) = sumYears y n + daysInYearN (y + n) := by
  induction n generalizing y with
  | zero => simp [sumYears]
  | succ m ih =>
      rw [show m + 1 + 1 = (m + 1) + 1 from rfl, sumYears, ih, sumYears]
      have : y + 1 + (m : Int) = y + (m + 1 : Nat) := by push_cast; ring
      rw [this]; omega

theorem sumYears_ge (y : Int) (n : Nat) : 365 * n ≤ sumYears y n := by
  induction n generalizing y with
  | zero => simp [sumYears]
  | succ m ih =>
      rw [sumYears]
      have := daysInYearN_ge y
      have := ih (y + 1)
      omega

/-- Splits a non-negative day number (counted from Jan 1 of year `y`) into a
year and a day-of-year, scanning forward one year at a time.  The first
argument is recursion fuel; any `fuel ≥ d` is enough. -/
def yearDoyUp : Nat → Nat → Int → Int × Nat
  | 0, d, y => (y, d)
  | fuel + 1, d, y =>
      if d < daysInYearN y then (y, d) else yearDoyUp fuel (d - daysInYearN y) (y + 1)

/-- Splits a positive count `n` of days lying before Jan 1 of year `y` into a
year and a day-of-year, scanning backward one year at a time. -/
def yearDoyDown : Nat → Nat → Int → Int × Nat
  | 0, n, y => (y, n)
  | fuel + 1, n, y =>
      if n ≤ daysInYearN (y - 1) then (y - 1, daysInYearN (y - 1) - n)
      else yearDoyDown fuel (n - daysInYearN (y - 1)) (y - 1)

/-- Year and day-of-year of an epoch day number. -/
def civilYearDoy (day : Int) : Int × Nat :=
  if day < 0 then yearDoyDown (-day).toNat (-day).toNat 1970
  else yearDoyUp day.toNat day.toNat 1970

theorem yearDoyUp_spec :
    ∀ fuel d y, d ≤ fuel →
      y ≤ (yearDoyUp fuel d y).1 ∧
      (yearDoyUp fuel d y).2 < daysInYearN (yearDoyUp fuel d y).1 ∧
      sumYears y ((yearDoyUp fuel d y).1 - y).toNat + (yearDoyUp fuel d y).2 = d := by
  intro fuel
  induction fuel with
  | zero =>
      intro d y hd
      have hd0 : d = 0 := by omega
      subst hd0
      have := daysInYearN_ge y
      refine ⟨le_refl _, by simpa [yearDoyUp] using by omega, ?_⟩
      simp [yearDoyUp, sumYears]
  | succ fuel ih =>
      intro d y hd
      by_cases h : d < daysInYearN y
      · simp only [yearDoyUp, if_pos h]
        exact ⟨le_refl _, by simpa using h, by simp [sumYears]⟩
      · simp only [yearDoyUp, if_neg h]
        have h365 := daysInYearN_ge y
        have hrec := ih (d - daysInYearN y) (y + 1) (by omega)
        obtain ⟨h1, h2, h3⟩ := hrec
        refine ⟨by omega, h2, ?_⟩
        set r := yearDoyUp fuel (d - daysInYearN y) (y + 1) with hr
        have hk : (r.1 - y).toNat = (r.1 - (y + 1)).toNat + 1 := by omega
        rw [hk, sumYears]
        omega

theorem yearDoyDown_spec :
    ∀ fuel n y, 1 ≤ n → n ≤ fuel →
      (yearDoyDown fuel n y).1 < y ∧
      (yearDoyDown fuel n y).2 < daysInYearN (yearDoyDown fuel n y).1 ∧
      sumYears (yearDoyDown fuel n y).1 (y - (yearDoyDown fuel n y).1).toNat
        = n + (yearDoyDown fuel n y).2 := by
  intro fuel
  induction fuel with
  | zero => intro n y h1 h2; omega
  | succ fuel ih =>
      intro n y h1 h2
      by_cases h : n ≤ daysInYearN (y - 1)
      · simp only [yearDoyDown, if_pos h]
        have h365 := daysInYearN_ge (y - 1)
        refine ⟨by omega, by simp; omega, ?_⟩
        have : (y - (y - 1)).toNat = 1 := by omega
        rw [this, sumYears, sumYears]
        omega
      · simp only [yearDoyDown, if_neg h]
        have h365 := daysInYearN_ge (y - 1)
        have hrec := ih (n - daysInYearN (y - 1)) (y - 1) (by omega) (by omega)
        obtain ⟨hlt, h2', h3⟩ := hrec
        refine ⟨by omega, h2', ?_⟩
        set r := yearDoyDown fuel (n - daysInYearN (y - 1)) (y - 1) with hr
        have hk : (y - r.1).toNat = (y - 1 - r.1).toNat + 1 := by omega
        rw [hk, sumYears_succ_top]
        have : r.1 + ((y - 1 - r.1).toNat : Int) = y - 1 := by omega
        rw [this]
        omega

/-- Epoch day number of Jan 1 of year `y`. -/
def yearStartDay (y : Int) : Int :=
  if 1970 ≤ y then (sumYears 1970 (y - 1970).toNat : Int)
  else -(sumYears y (1970 - y).toNat : Int)

theorem civilYearDoy_spec (day : Int) :
    yearStartDay (civilYearDoy day).1 + ((civilYearDoy day).2 : Int) = day ∧
    (civilYearDoy day).2 < daysInYearN (civilYearDoy day).1 := by
  unfold civilYearDoy
  by_cases hneg : day < 0
  · simp only [if_pos hneg]
    have h1 : 1 ≤ (-day).toNat := by omega
    have := yearDoyDown_spec (-day).toNat (-day).toNat 1970 h1 (le_refl _)
    obtain ⟨hlt, hdoy, hsum⟩ := this
    set r := yearDoyDown (-day).toNat (-day).toNat 1970 with hr
    refine ⟨?_, hdoy⟩
    have hys : yearStartDay r.1 = -(sumYears r.1 (1970 - r.1).toNat : Int) := by
      unfold yearStartDay
      rw [if_neg (by omega)]
    rw [hys]
    omega
  · simp only [if_neg hneg]
    have := yearDoyUp_spec day.toNat day.toNat 1970 (le_refl _)
    obtain ⟨hle, hdoy, hsum⟩ := this
    set r := yearDoyUp day.toNat day.toNat 1970 with hr
    refine ⟨?_, hdoy⟩
    have hys : yearStartDay r.1 = (sumYears 1970 (r.1 - 1970).toNat : Int) := by
      unfold yearStartDay
      rw [if_pos (by omega)]
    rw [hys]
    omega

theorem civilYearDoy_year_bound (day : Int) (h : day.natAbs ≤ 100000000) :
    (civilYearDoy day).1.natAbs < 1000000 := by
  unfold civilYearDoy
  by_cases hneg : day < 0
  · simp only [if_pos hneg]
    have h1 : 1 ≤ (-day).toNat := by omega
    have hsp := yearDoyDown_spec (-day).toNat (-day).toNat 1970 h1 (le_refl _)
    obtain ⟨hlt, hdoy, hsum⟩ := hsp
    set r := yearDoyDown (-day).toNat (-day).toNat 1970 with hr
    have hge := sumYears_ge r.1 (1970 - r.1).toNat
    have hle := daysInYearN_le r.1
    omega
  · simp only [if_neg hneg]
    have hsp := yearDoyUp_spec day.toNat day.toNat 1970 (le_refl _)
    obtain ⟨hle, hdoy, hsum⟩ := hsp
    set r := yearDoyUp day.toNat day.toNat 1970 with hr
    have hge := sumYears_ge 1970 (r.1 - 1970).toNat
    omega

/-- Month (1-based) and day-of-month (1-based) of a day-of-year, given the
list of month lengths. -/
def mdOfDoy : List Nat → Nat → Nat × Nat
  | [], d => (1, d + 1)
  | len :: rest, d =>
      if d < len then (1, d + 1)
      else
        let p := mdOfDoy rest (d - len)
        (p.1 + 1, p.2)

/-- Day-of-year of a month (1-based) and day-of-month (1-based), given the
list of month lengths. -/
def doyOfMd : List Nat → Nat → Nat → Nat
  | _, 0, dd => dd - 1
  | _, 1, dd => dd - 1
  | [], _, dd => dd - 1
  | len :: rest, m + 2, dd => len + doyOfMd rest (m + 1) dd

theorem mdOfDoy_spec :
    ∀ L d, d < L.sum →
      1 ≤ (mdOfDoy L d).1 ∧ (mdOfDoy L d).1 ≤ L.length ∧
      1 ≤ (mdOfDoy L d).2 ∧ (mdOfDoy L d).2 ≤ L.getD ((mdOfDoy L d).1 - 1) 0 ∧
      doyOfMd L (mdOfDoy L d).1 (mdOfDoy L d).2 = d := by
  intro L
  induction L with
  | nil => intro d hd; simp at hd
  | cons len rest ih =>
      intro d hd
      by_cases h : d < len
      · simp only [mdOfDoy, if_pos h]
        exact ⟨by omega, by simp only [List.length_cons]; omega, by omega,
          by simpa using by omega, by simp [doyOfMd]⟩
      · simp only [mdOfDoy, if_neg h]
        have hsum : (len :: rest).sum = len + rest.sum := by simp
        have hrec := ih (d - len) (by omega)
        obtain ⟨h1, h2, h3, h4, h5⟩ := hrec
        set p := mdOfDoy rest (d - len) with hp
        refine ⟨by omega, by simp; omega, h3, ?_, ?_⟩
        · have : p.1 + 1 - 1 = (p.1 - 1) + 1 := by omega
          simpa [this] using h4
        · have hm : ∃ k, p.1 = k + 1 := ⟨p.1 - 1, by omega⟩
          obtain ⟨k, hk⟩ := hm
          have : doyOfMd (len :: rest) (p.1 + 1) p.2 = len + doyOfMd rest p.1 p.2 := by
            rw [hk]
            rfl
          omega

/-- Broken-down ECMAScript date-time fields. -/
structure DateFields where
  year : Int
  month : Nat
  day : Nat
  hour : Nat
  minute : Nat
  second : Nat
  milli : Nat
deriving DecidableEq, Repr

/-- Field extraction of an ECMAScript time value (ES §21.4.1.3–21.4.1.16). -/
def fieldsOfMs (ms : Int) : DateFields :=
  let day := ms / 86400000
  let t := (ms % 86400000).toNat
  let yd := civilYearDoy day
  let md := mdOfDoy (monthLengths (isLeap yd.1)) yd.2
  ⟨yd.1, md.1, md.2, t / 3600000, t % 3600000 / 60000, t % 60000 / 1000, t % 1000⟩

/-- Time value of broken-down fields (ES `MakeDay`/`MakeTime`/`MakeDate`). -/
def msOfFields (f : DateFields) : Int :=
  (yearStartDay f.year + (doyOfMd (monthLengths (isLeap f.year)) f.month f.day : Int)) * 86400000
    + ((f.hour * 3600000 + f.minute * 60000 + f.second * 1000 + f.milli : Nat) : Int)

theorem msOfFields_fieldsOfMs (ms : Int) : msOfFields (fieldsOfMs ms) = ms := by
  unfold fieldsOfMs msOfFields
  simp only
  have hcd := civilYearDoy_spec (ms / 86400000)
  obtain ⟨hc1, hc2⟩ := hcd
  set yd := civilYearDoy (ms / 86400000) with hyd
  have hdoy : yd.2 < (monthLengths (isLeap yd.1)).sum := by
    rw [monthLengths_sum]; exact hc2
  have hmd := mdOfDoy_spec (monthLengths (isLeap yd.1)) yd.2 hdoy
  obtain ⟨_, _, _, _, h5⟩ := hmd
  set md := mdOfDoy (monthLengths (isLeap yd.1)) yd.2 with hmd2
  rw [h5]
  have htime : ((ms % 86400000).toNat / 3600000) * 3600000
      + ((ms % 86400000).toNat % 3600000 / 60000) * 60000
      + ((ms % 86400000).toNat % 60000 / 1000) * 1000
      + (ms % 86400000).toNat % 1000 = (ms % 86400000).toNat := by
    omega
  omega

theorem fieldsOfMs_bounds (ms : Int) :
    1 ≤ (fieldsOfMs ms).month ∧ (fieldsOfMs ms).month ≤ 12 ∧
    1 ≤ (fieldsOfMs ms).day ∧
    (fieldsOfMs ms).day
      ≤ (monthLengths (isLeap (fieldsOfMs ms).year)).getD ((fieldsOfMs ms).month - 1) 0 ∧
    (fieldsOfMs ms).hour ≤ 23 ∧ (fieldsOfMs ms).minute ≤ 59 ∧
    (fieldsOfMs ms).second ≤ 59 ∧ (fieldsOfMs ms).milli ≤ 999 := by
  unfold fieldsOfMs
  simp only
  have hcd := civilYearDoy_spec (ms / 86400000)
  obtain ⟨hc1, hc2⟩ := hcd
  set yd := civilYearDoy (ms / 86400000) with hyd
  have hdoy : yd.2 < (monthLengths (isLeap yd.1)).sum := by
    rw [monthLengths_sum]; exact hc2
  have hmd := mdOfDoy_spec (monthLengths (isLeap yd.1)) yd.2 hdoy
  obtain ⟨h1, h2, h3, h4, _⟩ := hmd
  have hlen : (monthLengths (isLeap yd.1)).length = 12 := by
    unfold monthLengths; simp
  have ht : (ms % 86400000).toNat < 86400000 := by omega
  refine ⟨h1, by omega, h3, h4, by omega, by omega, by omega, by omega⟩

theorem fieldsOfMs_year_bound (ms : Int) (h : ms.natAbs ≤ 8640000000000000) :
    (fieldsOfMs ms).year.natAbs < 1000000 := by
  unfold fieldsOfMs
  simp only
  exact civilYearDoy_year_bound (ms / 86400000) (by omega)

/-! ## Digits, padded decimal fields, `Date.prototype.toISOString` -/

/-- The decimal digit character for `n % 10`. -/
def dChar (n : Nat) : Char := Char.ofNat (48 + n % 10)

theorem dChar_toNat (n : Nat) : (dChar n).toNat = 48 + n % 10 := by
  have h : n % 10 < 10 := Nat.mod_lt _ (by omega)
  unfold dChar
  set k := n % 10 with hk
  interval_cases k <;> decide

def pad2 (n : Nat) : List Char := [dChar (n / 10), dChar n]

def pad3 (n : Nat) : List Char := [dChar (n / 100), dChar (n / 10), dChar n]

def pad4 (n : Nat) : List Char :=
  [dChar (n / 1000), dChar (n / 100), dChar (n / 10), dChar n]

def pad6 (n : Nat) : List Char :=
  [dChar (n / 100000), dChar (n / 10000), dChar (n / 1000), dChar (n / 100),
   dChar (n / 10), dChar n]

/-- Everything after the year in a `toISOString` result:
`-MM-DDTHH:mm:ss.sssZ`. -/
def isoTail (mo dd hh mi ss fr : Nat) : List Char :=
  '-' :: (pad2 mo ++ '-' :: (pad2 dd ++ 'T' :: (pad2 hh ++ ':' :: (pad2 mi
    ++ ':' :: (pad2 ss ++ '.' :: (pad3 fr ++ [ 'Z' ]))))))

/-- Character list produced by `Date.prototype.toISOString` for the given
broken-down fields: `YYYY-MM-DDTHH:mm:ss.sssZ`, with the expanded-year forms
`+YYYYYY` / `-YYYYYY` for years outside `[0, 9999]` (ES §21.4.4.36,
§21.4.1.17.1). -/
def isoChars (f : DateFields) : List Char :=
  (if 0 ≤ f.year ∧ f.year ≤ 9999 then pad4 f.year.toNat
   else if f.year < 0 then '-' :: pad6 (-f.year).toNat
   else '+' :: pad6 f.year.toNat)
  ++ isoTail f.month f.day f.hour f.minute f.second f.milli

/-- Model of `Date.prototype.toISOString` on a time value. -/
def toISOString (ms : Int) : String := ⟨isoChars (fieldsOfMs ms)⟩

/-! ## Model of `Date.parse`

`Date.parse` first tries the ECMAScript Date Time String Format
(ES §21.4.1.18): `YYYY[-MM[-DD]]` or `±YYYYYY[-MM[-DD]]`, optionally
followed by `THH:mm[:ss[.fff…]]` and a time-zone designator `Z` or
`±HH:mm`.  Strings not in that format fall through to implementation-defined
parsing, which rejects everything this development ever feeds to it; the
model returns `none` for them.  A missing time-zone designator is modelled
as UTC (for date-only strings that is what ES specifies; for date-time
strings ES uses the host time zone, which the model fixes to UTC — no claim
below depends on such strings).  Out-of-range field values make the string
an invalid instant (`NaN`), i.e. `none`, as does a time value outside the
ECMAScript range of `8.64e15` ms (`TimeClip`, ES §21.4.1.15). -/

def digitVal (c : Char) : Option Nat :=
  if 48 ≤ c.toNat ∧ c.toNat ≤ 57 then some (c.toNat - 48) else none

theorem digitVal_dChar (n : Nat) : digitVal (dChar n) = some (n % 10) := by
  unfold digitVal
  rw [dChar_toNat]
  have h : n % 10 < 10 := Nat.mod_lt _ (by omega)
  rw [if_pos (by omega)]
  congr 1
  omega

/-- Reads exactly `k` decimal digits, most significant first. -/
def readDigits : Nat → Nat → List Char → Option (Nat × List Char)
  | 0, acc, cs => some (acc, cs)
  | k + 1, acc, cs =>
      match cs with
      | [] => none
      | c :: rest =>
          match digitVal c with
          | some d => readDigits k (acc * 10 + d) rest
          | none => none

/-- Splits the leading run of decimal digits off a character list. -/
def spanDigits : List Char → List Nat × List Char
  | [] => ([], [])
  | c :: rest =>
      match digitVal c with
      | some d => let p := spanDigits rest; (d :: p.1, p.2)
      | none => ([], c :: rest)

/-- Milliseconds denoted by a (non-empty) list of fraction digits: the first
three digits, right-padded with zeros. -/
def fracValue (ds : List Nat) : Nat :=
  match ds with
  | [] => 0
  | [a] => a * 100
  | [a, b] => a * 100 + b * 10
  | a :: b :: c :: _ => a * 100 + b * 10 + c

/-- ES `TimeClip`: a time value farther than 8.64e15 ms from the epoch is
not a valid instant. -/
def timeClip (t : Int) : Option Int :=
  if t.natAbs ≤ 8640000000000000 then some t else none

def parseNumOffset (sign : Int) (cs : List Char) : Option Int :=
  match readDigits 2 0 cs with
  | none => none
  | some (oh, cs1) =>
      match cs1 with
      | [] => none
      | c :: cs2 =>
          if c = ':' then
            match readDigits 2 0 cs2 with
            | none => none
            | some (om, cs3) =>
                if cs3.isEmpty ∧ oh ≤ 23 ∧ om ≤ 59
                then some (sign * (oh * 60 + om)) else none
          else none

/-- Time-zone designator at the end of the string; yields the offset in
minutes.  The empty designator is modelled as UTC (see above). -/
def parseTZ (cs : List Char) : Option Int :=
  match cs with
  | [] => some 0
  | c :: rest =>
      if c = 'Z' then (if rest.isEmpty then some 0 else none)
      else if c = '+' then parseNumOffset 1 rest
      else if c = '-' then parseNumOffset (-1) rest
      else none

def validYMD (y : Int) (mo dd : Nat) : Bool :=
  decide (1 ≤ mo ∧ mo ≤ 12 ∧ 1 ≤ dd)
    && decide (dd ≤ (monthLengths (isLeap y)).getD (mo - 1) 0)

/-- Optional seconds and fraction: yields (seconds, milliseconds, rest). -/
def parseSecFrac (cs : List Char) : Option (Nat × Nat × List Char) :=
  match cs with
  | [] => some (0, 0, [])
  | c :: cs1 =>
      if c = ':' then
        match readDigits 2 0 cs1 with
        | none => none
        | some (ss, cs2) =>
            match cs2 with
            | [] => some (ss, 0, [])
            | c2 :: cs3 =>
                if c2 = '.' then
                  match spanDigits cs3 with
                  | (d0 :: ds, cs4) => some (ss, fracValue (d0 :: ds), cs4)
                  | ([], _) => none
                else some (ss, 0, c2 :: cs3)
      else some (0, 0, c :: cs1)

def parseTime (y : Int) (mo dd : Nat) (cs : List Char) : Option Int :=
  match readDigits 2 0 cs with
  | none => none
  | some (hh, cs1) =>
      match cs1 with
      | [] => none
      | c :: cs2 =>
          if c = ':' then
            match readDigits 2 0 cs2 with
            | none => none
            | some (mi, cs3) =>
                match parseSecFrac cs3 with
                | none => none
                | some (ss, fr, cs7) =>
                    match parseTZ cs7 with
                    | none => none
                    | some off =>
                        if (hh ≤ 23 ∨ (hh = 24 ∧ mi = 0 ∧ ss = 0 ∧ fr = 0))
                            ∧ mi ≤ 59 ∧ ss ≤ 59 then
                          timeClip (msOfFields ⟨y, mo, dd, hh, mi, ss, fr⟩ - off * 60000)
                        else none
          else none

/-- Continues after a complete date part: end of string, or `T` and a time. -/
def parseDT (y : Int) (mo dd : Nat) (cs : List Char) : Option Int :=
  if validYMD y mo dd then
    match cs with
    | [] => timeClip (msOfFields ⟨y, mo, dd, 0, 0, 0, 0⟩)
    | c :: cs2 => if c = 'T' then parseTime y mo dd cs2 else none
  else none

def parseYear (cs : List Char) : Option (Int × List Char) :=
  match cs with
  | [] => none
  | c :: rest =>
      if c = '+' then
        match readDigits 6 0 rest with
        | some (n, r2) => some ((n : Int), r2)
        | none => none
      else if c = '-' then
        match readDigits 6 0 rest with
        | some (n, r2) => if n = 0 then none else some (-(n : Int), r2)
        | none => none
      else
        match readDigits 4 0 cs with
        | some (n, r2) => some ((n : Int), r2)
        | none => none

/-- Continuation of `Date.parse` after the year field. -/
def parseAfterYear (y : Int) (rest : List Char) : Option Int :=
  match rest with
  | [] => parseDT y 1 1 []
  | c :: cs2 =>
      if c = '-' then
        match readDigits 2 0 cs2 with
        | none => none
        | some (mo, cs3) =>
            match cs3 with
            | [] => parseDT y mo 1 []
            | c2 :: cs4 =>
                if c2 = '-' then
                  match readDigits 2 0 cs4 with
                  | none => none
                  | some (dd, cs5) => parseDT y mo dd cs5
                else parseDT y mo 1 (c2 :: cs4)
      else parseDT y 1 1 (c :: cs2)

/-- Model of `Date.parse` on a character list (see the section comment). -/
def jsDateParseC (cs : List Char) : Option Int :=
  match parseYear cs with
  | none => none
  | some (y, rest) => parseAfterYear y rest

/-- Model of `Date.parse` on a string. -/
def jsDateParse (s : String) : Option Int := jsDateParseC s.data

/-! ## The `isoDateRE` regular expression

The source tests (unanchored, via `RegExp.prototype.test`) the pattern

`(\d{4}-[01]\d-[0-3]\dT[0-2]\d:[0-5]\d:[0-5]\d\.\d+([+-][0-2]\d:[0-5]\d|Z))
|(\d{4}-[01]\d-[0-3]\dT[0-2]\d:[0-5]\d:[0-5]\d([+-][0-2]\d:[0-5]\d|Z))
|(\d{4}-[01]\d-[0-3]\dT[0-2]\d:[0-5]\d([+-][0-2]\d:[0-5]\d|Z))`

i.e. a match may start at any position; the three alternatives share the
prefix `\d{4}-[01]\d-[0-3]\dT[0-2]\d:[0-5]\d` and continue with seconds and
a fraction, just seconds, or nothing, always ending in the time-zone
designator `[+-][0-2]\d:[0-5]\d|Z`.  Since the designator starts with a
non-digit, greedy `\d+` is equivalent to the existential semantics and the
matcher below is an exact decision procedure for the regex. -/

def isDig (c : Char) : Bool := decide (48 ≤ c.toNat ∧ c.toNat ≤ 57)

def dig01 (c : Char) : Bool := decide (48 ≤ c.toNat ∧ c.toNat ≤ 49)

def dig03 (c : Char) : Bool := decide (48 ≤ c.toNat ∧ c.toNat ≤ 51)

def dig02 (c : Char) : Bool := decide (48 ≤ c.toNat ∧ c.toNat ≤ 50)

def dig05 (c : Char) : Bool := decide (48 ≤ c.toNat ∧ c.toNat ≤ 53)

/-- Matches `([+-][0-2]\d:[0-5]\d|Z)` at the head (trailing characters are
unconstrained: the regex is not anchored at the end). -/
def tzHere : List Char → Bool
  | 'Z' :: _ => true
  | c :: h1 :: h2 :: ':' :: m1 :: m2 :: _ =>
      (decide (c = '+') || decide (c = '-')) && dig02 h1 && isDig h2 && dig05 m1 && isDig m2
  | _ => false

/-- After at least one fraction digit: `\d*` then the designator. -/
def digitsTz : List Char → Bool
  | [] => false
  | c :: rest => if isDig c then digitsTz rest else tzHere (c :: rest)

/-- Matches `\.\d+⟨tz⟩` at the head. -/
def fracPart : List Char → Bool
  | c :: d1 :: rest2 => decide (c = '.') && isDig d1 && digitsTz rest2
  | _ => false

/-- Matches the tail of the three regex alternatives, starting right after
the minutes: `:[0-5]\d\.\d+⟨tz⟩`, `:[0-5]\d⟨tz⟩`, or `⟨tz⟩`. -/
def afterMinutes (cs : List Char) : Bool :=
  (match cs with
   | ':' :: s1 :: s2 :: rest => dig05 s1 && isDig s2 && (fracPart rest || tzHere rest)
   | _ => false) || tzHere cs

/-- Matches one of the regex alternatives at the head of the list. -/
def matchHere : List Char → Bool
  | y1 :: y2 :: y3 :: y4 :: '-' :: m1 :: m2 :: '-' :: d1 :: d2 :: 'T'
      :: h1 :: h2 :: ':' :: mi1 :: mi2 :: rest =>
      isDig y1 && isDig y2 && isDig y3 && isDig y4 && dig01 m1 && isDig m2 &&
      dig03 d1 && isDig d2 && dig02 h1 && isDig h2 && dig05 mi1 && isDig mi2 &&
      afterMinutes rest
  | _ => false

/-- Model of `isoDateRE.test`: a match may start at any position. -/
def testC : List Char → Bool
  | [] => false
  | c :: rest => matchHere (c :: rest) || testC rest

/-! ## Values and the type-coercion layer (`format`)

`Value` covers the scalar JavaScript/Neo4j values the adapter traffics in:
`vDate` is a JavaScript `Date` (by its time value), `vInt` a Neo4j `Integer`
(the driver's arbitrary-precision integer type recognised by `isInt`), and
`vNum` a JavaScript number (exact rationals stand in for the float values;
the coercion layer never computes with them).  An object is a flat list of
fields; `RValue`/`Row` model a Neo4j result row, whose cells are either
scalars or node projection maps (one level of nesting is all the adapter's
queries produce). -/

inductive Value where
  | vNull
  | vBool (b : Bool)
  | vNum (q : Rat)
  | vStr (s : String)
  | vDate (ms : Int)
  | vInt (i : Int)
deriving DecidableEq, Repr

abbrev Obj := List (String × Value)

inductive RValue where
  | scalar (v : Value)
  | map (m : Obj)
deriving DecidableEq, Repr

abbrev Row := List (String × RValue)

/-- Largest `Double`-safe integer magnitude, `2^53 - 1`; the bound used by
the driver's `integer.inSafeRange`. -/
def maxSafeInteger : Nat := 9007199254740991

/-- Decimal numeral of `n`, built least-significant digit first.  The first
argument is recursion fuel; `fuel ≥ n` is enough. -/
def natDigits : Nat → Nat → List Char → List Char
  | 0, n, acc => dChar n :: acc
  | fuel + 1, n, acc =>
      if n < 10 then dChar n :: acc else natDigits fuel (n / 10) (dChar (n % 10) :: acc)

def natDecimal (n : Nat) : List Char := natDigits n n []

/-- Model of `Integer.prototype.toString` (base 10): the exact decimal
numeral. -/
def intDecimalC (i : Int) : List Char :=
  if i < 0 then '-' :: natDecimal (-i).toNat else natDecimal i.toNat

def intDecimal (i : Int) : String := ⟨intDecimalC i⟩

/-- Model of the source's `isDate`:
`value && isoDateRE.test(value) && !isNaN(Date.parse(value))`.
For non-string values `RegExp.test` and `Date.parse` first apply
`ToString`; no `ToString` image of a number, boolean, `Date` or Neo4j
`Integer` contains the substring shape `\d{4}-…T…` required by the regex
(numbers print as digits with at most `-./e+` around them, `Date` prints in
the `Wed Jan 01 …` form, `null`/`false`/`0`/`""` are falsy and
short-circuit), so `isDate` is false for every non-string value. -/
def isDate (v : Value) : Bool :=
  match v with
  | .vStr s => testC s.data && (jsDateParseC s.data).isSome
  | _ => false

/-- Model of `format.to` on one field value: a `Date` becomes its ISO
string, everything else passes through. -/
def toValue (v : Value) : Value :=
  match v with
  | .vDate t => .vStr (toISOString t)
  | v => v

/-- Model of `format.from` on one field value: a string passing `isDate`
becomes a `Date`; a Neo4j `Integer` becomes a number when inside the safe
range and its decimal string otherwise; everything else passes through. -/
def fromValue (v : Value) : Value :=
  match v with
  | .vStr s =>
      if testC s.data && (jsDateParseC s.data).isSome
      then .vDate ((jsDateParseC s.data).getD 0)
      else .vStr s
  | .vInt i =>
      if i.natAbs ≤ maxSafeInteger then .vNum (Rat.ofInt i) else .vStr (intDecimal i)
  | v => v

/-- Model of `format.to` on an object (field-by-field). -/
def toObj (o : Obj) : Obj := o.map (fun kv => (kv.1, toValue kv.2))

/-- Model of `format.from` on an object (field-by-field; `for key in object`
visits each field once and never recurses). -/
def fromObj (o : Obj) : Obj := o.map (fun kv => (kv.1, fromValue kv.2))

/-- Model of `format.from` applied to a result row by `client.write`
(`result?.records[0]?.toObject()`): scalar cells are coerced, nested node
projections are objects, not strings/integers, and pass through
unconverted. -/
def fromRow (r : Row) : Row :=
  r.map (fun kv =>
    (kv.1, match kv.2 with
           | .scalar v => .scalar (fromValue v)
           | .map m => .map m))

/-! ## Round-trip of the date formatter through the parser -/

theorem dChar_bounds (n : Nat) : 48 ≤ (dChar n).toNat ∧ (dChar n).toNat ≤ 57 := by
  rw [dChar_toNat]
  have : n % 10 < 10 := Nat.mod_lt _ (by omega)
  omega

theorem dChar_ne_plus (n : Nat) : dChar n ≠ '+' := by
  intro h
  have hb := dChar_bounds n
  rw [h] at hb
  simp at hb

theorem dChar_ne_minus (n : Nat) : dChar n ≠ '-' := by
  intro h
  have hb := dChar_bounds n
  rw [h] at hb
  simp at hb

theorem readDigits_pad2 (m : Nat) (hm : m < 100) (rest : List Char) :
    readDigits 2 0 (pad2 m ++ rest) = some (m, rest) := by
  simp only [pad2, List.cons_append, List.nil_append, readDigits, digitVal_dChar]
  congr 2
  omega

theorem readDigits_pad4 (m : Nat) (hm : m < 10000) (rest : List Char) :
    readDigits 4 0 (pad4 m ++ rest) = some (m, rest) := by
  simp only [pad4, List.cons_append, List.nil_append, readDigits, digitVal_dChar]
  congr 2
  omega

theorem readDigits_pad6 (m : Nat) (hm : m < 1000000) (rest : List Char) :
    readDigits 6 0 (pad6 m ++ rest) = some (m, rest) := by
  simp only [pad6, List.cons_append, List.nil_append, readDigits, digitVal_dChar]
  congr 2
  omega

theorem spanDigits_pad3 (fr : Nat) (c : Char) (hc : digitVal c = none) (rest : List Char) :
    spanDigits (pad3 fr ++ c :: rest)
      = ([fr / 100 % 10, fr / 10 % 10, fr % 10], c :: rest) := by
  simp only [pad3, List.cons_append, List.nil_append, spanDigits, digitVal_dChar, hc]

theorem parseSecFrac_iso (ss fr : Nat) (hss : ss < 100) (hfr : fr ≤ 999) :
    parseSecFrac (':' :: (pad2 ss ++ '.' :: (pad3 fr ++ [ 'Z' ])))
      = some (ss, fr, [ 'Z' ]) := by
  have h1 := readDigits_pad2 ss hss ('.' :: (pad3 fr ++ [ 'Z' ]))
  have h2 := spanDigits_pad3 fr 'Z' (by decide) []
  simp only [parseSecFrac, h1, h2, if_pos, reduceIte, fracValue]
  rw [show fr / 100 % 10 * 100 + fr / 10 % 10 * 10 + fr % 10 = fr from by omega]

theorem parseTime_iso (y : Int) (mo dd hh mi ss fr : Nat)
    (hhh : hh ≤ 23) (hmi : mi ≤ 59) (hss : ss ≤ 59) (hfr : fr ≤ 999) :
    parseTime y mo dd (pad2 hh ++ ':' :: (pad2 mi
        ++ ':' :: (pad2 ss ++ '.' :: (pad3 fr ++ [ 'Z' ]))))
      = timeClip (msOfFields ⟨y, mo, dd, hh, mi, ss, fr⟩) := by
  have h1 := readDigits_pad2 hh (by omega)
    (':' :: (pad2 mi ++ ':' :: (pad2 ss ++ '.' :: (pad3 fr ++ [ 'Z' ]))))
  have h2 := readDigits_pad2 mi (by omega)
    (':' :: (pad2 ss ++ '.' :: (pad3 fr ++ [ 'Z' ])))
  have h3 := parseSecFrac_iso ss fr (by omega) hfr
  have h4 : parseTZ [ 'Z' ] = some 0 := by decide
  simp only [parseTime, h1, h2, h3, h4, reduceIte]
  rw [if_pos (by exact ⟨Or.inl hhh, hmi, hss⟩)]
  norm_num

theorem parseAfterYear_iso (y : Int) (mo dd hh mi ss fr : Nat)
    (hv : validYMD y mo dd = true) (hmo : mo < 100) (hdd : dd < 100)
    (hhh : hh ≤ 23) (hmi : mi ≤ 59) (hss : ss ≤ 59) (hfr : fr ≤ 999) :
    parseAfterYear y (isoTail mo dd hh mi ss fr)
      = timeClip (msOfFields ⟨y, mo, dd, hh, mi, ss, fr⟩) := by
  have h1 := readDigits_pad2 mo hmo
    ('-' :: (pad2 dd ++ 'T' :: (pad2 hh ++ ':' :: (pad2 mi
      ++ ':' :: (pad2 ss ++ '.' :: (pad3 fr ++ [ 'Z' ]))))))
  have h2 := readDigits_pad2 dd hdd
    ('T' :: (pad2 hh ++ ':' :: (pad2 mi ++ ':' :: (pad2 ss ++ '.' :: (pad3 fr ++ [ 'Z' ])))))
  have h3 := parseTime_iso y mo dd hh mi ss fr hhh hmi hss hfr
  simp only [isoTail, parseAfterYear, h1, h2, reduceIte, parseDT, hv, if_true, h3]

theorem parseYear_isoChars (f : DateFields) (hy : f.year.natAbs < 1000000) :
    parseYear (isoChars f)
      = some (f.year, isoTail f.month f.day f.hour f.minute f.second f.milli) := by
  unfold isoChars
  by_cases h1 : 0 ≤ f.year ∧ f.year ≤ 9999
  · rw [if_pos h1]
    have h4 : f.year.toNat < 10000 := by omega
    have hr := readDigits_pad4 f.year.toNat h4
      (isoTail f.month f.day f.hour f.minute f.second f.milli)
    simp only [pad4, List.cons_append, List.nil_append] at hr
    simp only [pad4, List.cons_append, List.nil_append, parseYear,
      if_neg (dChar_ne_plus _), if_neg (dChar_ne_minus _), hr]
    rw [show ((f.year.toNat : Int)) = f.year from by omega]
  · rw [if_neg h1]
    by_cases h2 : f.year < 0
    · rw [if_pos h2]
      have h6 : (-f.year).toNat < 1000000 := by omega
      have hr := readDigits_pad6 (-f.year).toNat h6
        (isoTail f.month f.day f.hour f.minute f.second f.milli)
      simp only [List.cons_append, parseYear, hr,
        if_neg (show ¬(('-' : Char) = '+') from by decide),
        if_pos (show ('-' : Char) = '-' from rfl), if_true]
      rw [if_neg (show ¬((-f.year).toNat = 0) from by omega)]
      rw [show (-(((-f.year).toNat : Int))) = f.year from by omega]
    · rw [if_neg h2]
      have hr := readDigits_pad6 f.year.toNat (by omega)
        (isoTail f.month f.day f.hour f.minute f.second f.milli)
      simp only [List.cons_append, parseYear, hr,
        if_pos (show ('+' : Char) = '+' from rfl), if_true]
      rw [show ((f.year.toNat : Int)) = f.year from by omega]

theorem monthLengths_getD_le (b : Bool) (i : Nat) : (monthLengths b).getD i 0 ≤ 31 := by
  unfold monthLengths
  rcases b <;>
    rcases i with _|_|_|_|_|_|_|_|_|_|_|_|i <;> simp [List.getD]

theorem jsDateParseC_isoChars (f : DateFields)
    (hm1 : 1 ≤ f.month) (hm2 : f.month ≤ 12)
    (hd1 : 1 ≤ f.day)
    (hd2 : f.day ≤ (monthLengths (isLeap f.year)).getD (f.month - 1) 0)
    (hhh : f.hour ≤ 23) (hmi : f.minute ≤ 59) (hss : f.second ≤ 59) (hml : f.milli ≤ 999)
    (hy : f.year.natAbs < 1000000)
    (hclip : (msOfFields f).natAbs ≤ 8640000000000000) :
    jsDateParseC (isoChars f) = some (msOfFields f) := by
  rw [jsDateParseC, parseYear_isoChars f hy]
  have hv : validYMD f.year f.month f.day = true := by
    simp only [validYMD, Bool.and_eq_true, decide_eq_true_eq]
    exact ⟨⟨hm1, hm2, hd1⟩, hd2⟩
  have hd99 : f.day < 100 := by
    have := monthLengths_getD_le (isLeap f.year) (f.month - 1)
    omega
  have h5 := parseAfterYear_iso f.year f.month f.day f.hour f.minute f.second f.milli
    hv (by omega) hd99 hhh hmi hss hml
  simp only [h5]
  rw [timeClip, if_pos hclip]

/-! ## The formatter's output always passes `isoDateRE` -/

theorem isDig_dChar (n : Nat) : isDig (dChar n) = true := by
  have h := dChar_bounds n
  simp only [isDig, decide_eq_true_eq]
  omega

theorem dig01_dChar (n : Nat) (h : n % 10 ≤ 1) : dig01 (dChar n) = true := by
  have hb := dChar_toNat n
  simp only [dig01, decide_eq_true_eq]
  omega

theorem dig02_dChar (n : Nat) (h : n % 10 ≤ 2) : dig02 (dChar n) = true := by
  have hb := dChar_toNat n
  simp only [dig02, decide_eq_true_eq]
  omega

theorem dig03_dChar (n : Nat) (h : n % 10 ≤ 3) : dig03 (dChar n) = true := by
  have hb := dChar_toNat n
  simp only [dig03, decide_eq_true_eq]
  omega

theorem dig05_dChar (n : Nat) (h : n % 10 ≤ 5) : dig05 (dChar n) = true := by
  have hb := dChar_toNat n
  simp only [dig05, decide_eq_true_eq]
  omega

theorem digitsTz_cons_digit (n : Nat) (l : List Char) :
    digitsTz (dChar n :: l) = digitsTz l := by
  rw [digitsTz, if_pos (isDig_dChar n)]

theorem afterMinutes_iso (ss fr : Nat) (hss : ss ≤ 59) :
    afterMinutes (':' :: dChar (ss / 10) :: dChar ss :: '.' :: (pad3 fr ++ [ 'Z' ]))
      = true := by
  simp only [pad3, List.cons_append, List.nil_append]
  rw [afterMinutes]
  rw [fracPart]
  rw [digitsTz_cons_digit, digitsTz_cons_digit]
  rw [dig05_dChar (ss / 10) (by omega), isDig_dChar, isDig_dChar]
  rw [show digitsTz [ 'Z' ] = true from by decide]
  simp

theorem matchHere_iso (a b c d mo dd hh mi ss fr : Nat)
    (hmo : mo ≤ 19) (hdd : dd ≤ 39) (hhh : hh ≤ 29) (hmi : mi ≤ 59) (hss : ss ≤ 59) :
    matchHere (dChar a :: dChar b :: dChar c :: dChar d
      :: isoTail mo dd hh mi ss fr) = true := by
  simp only [isoTail, pad2, List.cons_append, List.nil_append]
  rw [matchHere]
  rw [afterMinutes_iso ss fr hss]
  simp only [isDig_dChar, dig01_dChar (mo / 10) (by omega),
    dig03_dChar (dd / 10) (by omega), dig02_dChar (hh / 10) (by omega),
    dig05_dChar (mi / 10) (by omega), Bool.and_self, Bool.and_true, Bool.true_and]

theorem matchHere_ne_nil : matchHere [] = false := rfl

theorem testC_append_of_matchHere (pre suf : List Char) (h : matchHere suf = true) :
    testC (pre ++ suf) = true := by
  induction pre with
  | nil =>
      cases suf with
      | nil => rw [matchHere_ne_nil] at h; exact absurd h (by simp)
      | cons c rest =>
          simp only [List.nil_append, testC, h, Bool.true_or]
  | cons c pre ih =>
      simp only [List.cons_append, testC, List.append_eq, ih, Bool.or_true]

theorem testC_isoChars (f : DateFields)
    (hmo : f.month ≤ 19) (hdd : f.day ≤ 39) (hhh : f.hour ≤ 29)
    (hmi : f.minute ≤ 59) (hss : f.second ≤ 59) :
    testC (isoChars f) = true := by
  unfold isoChars
  by_cases h1 : 0 ≤ f.year ∧ f.year ≤ 9999
  · rw [if_pos h1]
    have hm := matchHere_iso (f.year.toNat / 1000) (f.year.toNat / 100)
      (f.year.toNat / 10) f.year.toNat f.month f.day f.hour f.minute f.second f.milli
      hmo hdd hhh hmi hss
    have : pad4 f.year.toNat ++ isoTail f.month f.day f.hour f.minute f.second f.milli
        = [] ++ (dChar (f.year.toNat / 1000) :: dChar (f.year.toNat / 100)
          :: dChar (f.year.toNat / 10) :: dChar f.year.toNat
          :: isoTail f.month f.day f.hour f.minute f.second f.milli) := by
      simp [pad4]
    rw [this]
    exact testC_append_of_matchHere _ _ hm
  · rw [if_neg h1]
    by_cases h2 : f.year < 0
    · rw [if_pos h2]
      set n := (-f.year).toNat with hn
      have hm := matchHere_iso (n / 1000) (n / 100) (n / 10) n
        f.month f.day f.hour f.minute f.second f.milli hmo hdd hhh hmi hss
      have : ('-' :: pad6 n) ++ isoTail f.month f.day f.hour f.minute f.second f.milli
          = ['-', dChar (n / 100000), dChar (n / 10000)]
            ++ (dChar (n / 1000) :: dChar (n / 100) :: dChar (n / 10) :: dChar n
              :: isoTail f.month f.day f.hour f.minute f.second f.milli) := by
        simp [pad6]
      rw [this]
      exact testC_append_of_matchHere _ _ hm
    · rw [if_neg h2]
      set n := f.year.toNat with hn
      have hm := matchHere_iso (n / 1000) (n / 100) (n / 10) n
        f.month f.day f.hour f.minute f.second f.milli hmo hdd hhh hmi hss
      have : ('+' :: pad6 n) ++ isoTail f.month f.day f.hour f.minute f.second f.milli
          = ['+', dChar (n / 100000), dChar (n / 10000)]
            ++ (dChar (n / 1000) :: dChar (n / 100) :: dChar (n / 10) :: dChar n
              :: isoTail f.month f.day f.hour f.minute f.second f.milli) := by
        simp [pad6]
      rw [this]
      exact testC_append_of_matchHere _ _ hm

/-! ## Round-trip on `Date` values -/

theorem string_data_mk (l : List Char) : (String.mk l).data = l := rfl

theorem fromValue_toValue_date (t : Int) (h : t.natAbs ≤ 8640000000000000) :
    fromValue (toValue (.vDate t)) = .vDate t := by
  have hb := fieldsOfMs_bounds t
  obtain ⟨hm1, hm2, hd1, hd2, hhh, hmi, hss, hml⟩ := hb
  have hy := fieldsOfMs_year_bound t h
  have hd39 : (fieldsOfMs t).day ≤ 39 := by
    have := monthLengths_getD_le (isLeap (fieldsOfMs t).year) ((fieldsOfMs t).month - 1)
    omega
  have htest : testC (isoChars (fieldsOfMs t)) = true :=
    testC_isoChars (fieldsOfMs t) (by omega) hd39 (by omega) hmi hss
  have hclip : (msOfFields (fieldsOfMs t)).natAbs ≤ 8640000000000000 := by
    rw [msOfFields_fieldsOfMs]; exact h
  have hparse : jsDateParseC (isoChars (fieldsOfMs t)) = some t := by
    rw [jsDateParseC_isoChars (fieldsOfMs t) hm1 hm2 hd1 hd2 hhh hmi hss hml hy hclip,
      msOfFields_fieldsOfMs]
  show fromValue (.vStr (toISOString t)) = .vDate t
  unfold toISOString
  simp [fromValue, string_data_mk, htest, hparse]

/-! ## Exactness of the decimal string of an out-of-range integer -/

/-- Value of a decimal numeral, most significant digit first. -/
def natVal : List Char → Nat → Option Nat
  | [], acc => some acc
  | c :: rest, acc =>
      match digitVal c with
      | some d => natVal rest (acc * 10 + d)
      | none => none

/-- Value of an optionally `-`-signed decimal numeral. -/
def decimalVal (cs : List Char) : Option Int :=
  match cs with
  | [] => none
  | c :: rest =>
      if c = '-' then
        if rest.isEmpty then none
        else
          match natVal rest 0 with
          | none => none
          | some n => some (-(n : Int))
      else
        match natVal (c :: rest) 0 with
        | none => none
        | some n => some ((n : Int))

theorem natVal_append (l1 l2 : List Char) :
    ∀ acc, natVal (l1 ++ l2) acc
      = match natVal l1 acc with
        | none => none
        | some m => natVal l2 m := by
  induction l1 with
  | nil => intro acc; simp [natVal]
  | cons c rest ih =>
      intro acc
      simp only [List.cons_append, natVal]
      cases digitVal c with
      | none => rfl
      | some d => exact ih _

theorem natDigits_append (fuel : Nat) :
    ∀ n acc, natDigits fuel n acc = natDigits fuel n [] ++ acc := by
  induction fuel with
  | zero => intro n acc; simp [natDigits]
  | succ fuel ih =>
      intro n acc
      by_cases h : n < 10
      · simp [natDigits, h]
      · simp only [natDigits, if_neg h]
        rw [ih (n / 10) (dChar (n % 10) :: acc), ih (n / 10) [dChar (n % 10)]]
        simp

theorem natVal_natDigits (fuel : Nat) :
    ∀ n, n ≤ fuel → natVal (natDigits fuel n []) 0 = some n := by
  induction fuel with
  | zero =>
      intro n hn
      have : n = 0 := by omega
      subst this
      simp [natDigits, natVal, digitVal_dChar]
  | succ fuel ih =>
      intro n hn
      by_cases h : n < 10
      · simp only [natDigits, if_pos h, natVal, digitVal_dChar]
        rw [show 0 * 10 + n % 10 = n from by omega]
      · simp only [natDigits, if_neg h]
        rw [natDigits_append fuel (n / 10) [dChar (n % 10)]]
        rw [natVal_append]
        rw [ih (n / 10) (by omega)]
        simp only [natVal, digitVal_dChar]
        congr 1
        omega

theorem natDigits_head (fuel : Nat) :
    ∀ n acc, ∃ k l, natDigits fuel n acc = dChar k :: l := by
  induction fuel with
  | zero => intro n acc; exact ⟨n, acc, rfl⟩
  | succ fuel ih =>
      intro n acc
      by_cases h : n < 10
      · exact ⟨n, acc, by simp [natDigits, h]⟩
      · simpa only [natDigits, if_neg h] using ih (n / 10) (dChar (n % 10) :: acc)

theorem decimalVal_intDecimalC (i : Int) : decimalVal (intDecimalC i) = some i := by
  by_cases h : i < 0
  · rw [intDecimalC, if_pos h]
    obtain ⟨k, l, hkl⟩ := natDigits_head (-i).toNat (-i).toNat []
    rw [decimalVal]
    rw [if_pos rfl]
    rw [if_neg (by unfold natDecimal; rw [hkl]; simp)]
    unfold natDecimal
    rw [natVal_natDigits (-i).toNat (-i).toNat (le_refl _)]
    show some (-(((-i).toNat : Nat) : Int)) = some i
    congr 1
    omega
  · rw [intDecimalC, if_neg h]
    obtain ⟨k, l, hkl⟩ := natDigits_head i.toNat i.toNat []
    rw [show natDecimal i.toNat = dChar k :: l from hkl]
    rw [decimalVal]
    rw [if_neg (dChar_ne_minus k)]
    rw [← hkl]
    rw [natVal_natDigits i.toNat i.toNat (le_refl _)]
    show some ((i.toNat : Nat) : Int) = some i
    congr 1
    omega

/-! ## A decimal numeral never matches `isoDateRE` -/

theorem matchHere_T (cs : List Char) (h : matchHere cs = true) : 'T' ∈ cs := by
  unfold matchHere at h
  split at h
  · simp
  · simp at h

theorem testC_T (cs : List Char) (h : testC cs = true) : 'T' ∈ cs := by
  induction cs with
  | nil => simp [testC] at h
  | cons c rest ih =>
      rw [testC, Bool.or_eq_true] at h
      rcases h with h | h
      · exact matchHere_T _ h
      · exact List.mem_cons_of_mem _ (ih h)

theorem natDigits_chars (fuel : Nat) :
    ∀ n acc c, c ∈ natDigits fuel n acc → (∃ k, c = dChar k) ∨ c ∈ acc := by
  induction fuel with
  | zero =>
      intro n acc c hc
      rcases List.mem_cons.mp hc with h | h
      · exact Or.inl ⟨n, h⟩
      · exact Or.inr h
  | succ fuel ih =>
      intro n acc c hc
      by_cases h : n < 10
      · simp only [natDigits, if_pos h] at hc
        rcases List.mem_cons.mp hc with h' | h'
        · exact Or.inl ⟨n, h'⟩
        · exact Or.inr h'
      · simp only [natDigits, if_neg h] at hc
        rcases ih (n / 10) (dChar (n % 10) :: acc) c hc with h' | h'
        · exact Or.inl h'
        · rcases List.mem_cons.mp h' with h2 | h2
          · exact Or.inl ⟨n % 10, h2⟩
          · exact Or.inr h2

theorem testC_intDecimalC (i : Int) : testC (intDecimalC i) = false := by
  have hDig : ∀ m c, c ∈ natDecimal m → ∃ k, c = dChar k := by
    intro m c hc
    rcases natDigits_chars m m [] c hc with h | h
    · exact h
    · simp at h
  cases htc : testC (intDecimalC i) with
  | false => rfl
  | true =>
      exfalso
      have hT := testC_T _ htc
      by_cases hneg : i < 0
      · rw [intDecimalC, if_pos hneg] at hT
        rcases List.mem_cons.mp hT with h | h
        · exact absurd h (by decide)
        · obtain ⟨k, hk⟩ := hDig _ _ h
          have hb := dChar_bounds k
          rw [← hk] at hb
          exact absurd hb (by decide)
      · rw [intDecimalC, if_neg hneg] at hT
        obtain ⟨k, hk⟩ := hDig _ _ hT
        have hb := dChar_bounds k
        rw [← hk] at hb
        exact absurd hb (by decide)

/-! ## Value-level properties of the coercion layer -/

theorem fromValue_idem (v : Value) : fromValue (fromValue v) = fromValue v := by
  cases v with
  | vStr s =>
      by_cases hb : (testC s.data && (jsDateParseC s.data).isSome) = true
      · simp only [fromValue, hb, if_true]
      · simp only [fromValue, hb, if_false, Bool.false_eq_true]
  | vInt i =>
      by_cases hs : i.natAbs ≤ maxSafeInteger
      · simp only [fromValue, hs, if_true]
      · simp only [fromValue, hs, if_false]
        have : (testC (intDecimal i).data && (jsDateParseC (intDecimal i).data).isSome)
            = false := by
          rw [show (intDecimal i).data = intDecimalC i from rfl, testC_intDecimalC]
          rfl
        simp only [fromValue, this, Bool.false_eq_true, if_false]
  | vNull => rfl
  | vBool b => rfl
  | vNum q => rfl
  | vDate t => rfl

/-- Canonical values: the store-independent shapes produced by the inbound
coercion — `Date`s (inside the ECMAScript range), plain numbers, booleans,
null, and strings that the inbound coercion would not re-detect as dates;
never a raw store-native `Integer`. -/
def CanonicalValue : Value → Prop
  | .vDate t => t.natAbs ≤ 8640000000000000
  | .vInt _ => False
  | .vStr s => ¬(testC s.data = true ∧ (jsDateParseC s.data).isSome = true)
  | _ => True

theorem fromValue_toValue (v : Value) (h : CanonicalValue v) :
    fromValue (toValue v) = v := by
  cases v with
  | vDate t => exact fromValue_toValue_date t h
  | vStr s =>
      show fromValue (.vStr s) = .vStr s
      have h' : ¬(testC s.data = true ∧ (jsDateParseC s.data).isSome = true) := h
      have hb : ¬((testC s.data && (jsDateParseC s.data).isSome) = true) := by
        rw [Bool.and_eq_true]; exact h'
      simp only [fromValue, hb, Bool.false_eq_true, if_false]
  | vInt i => exact absurd h (by simp [CanonicalValue])
  | vNull => rfl
  | vBool b => rfl
  | vNum q => rfl

theorem fromObj_toObj (o : Obj) (h : ∀ kv ∈ o, CanonicalValue kv.2) :
    fromObj (toObj o) = o := by
  induction o with
  | nil => rfl
  | cons kv rest ih =>
      have h1 := fromValue_toValue kv.2 (h kv (by simp))
      have h2 := ih (fun kv hkv => h kv (List.mem_cons_of_mem _ hkv))
      show (kv.1, fromValue (toValue kv.2)) :: fromObj (toObj rest) = kv :: rest
      rw [h1, h2]

theorem fromObj_idem (o : Obj) : fromObj (fromObj o) = fromObj o := by
  induction o with
  | nil => rfl
  | cons kv rest ih =>
      show (kv.1, fromValue (fromValue kv.2)) :: fromObj (fromObj rest)
        = (kv.1, fromValue kv.2) :: fromObj rest
      rw [fromValue_idem, ih]

/-! ## JavaScript object / Cypher map operations -/

/-- First-match field lookup (`object[key]`). -/
def objGet : Obj → String → Option Value
  | [], _ => none
  | (k, v) :: rest, key => if k = key then some v else objGet rest key

/-- JavaScript object spread `{ ...base, ...ext }`: keys of `base` keep
their position but take `ext`'s value when `ext` also has the key; keys
only in `ext` are appended in order.  The same semantics models Cypher's
`SET n += map` on stored properties and the `m { .*, k: v }` map
projection. -/
def objSpread (base ext : Obj) : Obj :=
  base.map (fun kv => (kv.1, (objGet ext kv.1).getD kv.2))
    ++ ext.filter (fun kv => (objGet base kv.1).isNone)

theorem objGet_append (l1 l2 : Obj) (k : String) :
    objGet (l1 ++ l2) k
      = match objGet l1 k with
        | some v => some v
        | none => objGet l2 k := by
  induction l1 with
  | nil => simp [objGet]
  | cons kv rest ih =>
      obtain ⟨k0, v0⟩ := kv
      by_cases h : k0 = k
      · simp [objGet, h]
      · simp only [List.cons_append, objGet, if_neg h]
        exact ih

theorem objGet_mapVals (f : String → Value → Value) (l : Obj) (k : String) :
    objGet (l.map (fun kv => (kv.1, f kv.1 kv.2))) k = (objGet l k).map (f k) := by
  induction l with
  | nil => simp [objGet]
  | cons kv rest ih =>
      obtain ⟨k0, v0⟩ := kv
      by_cases h : k0 = k
      · subst h; simp [objGet]
      · simp only [List.map_cons, objGet, if_neg h]
        exact ih

theorem objGet_filter_notkey (l : Obj) (p : String × Value → Bool) (k : String)
    (h : ∀ v, p (k, v) = false) : objGet (l.filter p) k = none := by
  induction l with
  | nil => simp [objGet]
  | cons kv rest ih =>
      obtain ⟨k0, v0⟩ := kv
      by_cases hk : k0 = k
      · subst hk
        rw [List.filter_cons, h v0]
        simpa using ih
      · rw [List.filter_cons]
        by_cases hp : p (k0, v0) = true
        · simp only [hp, if_true]
          rw [objGet, if_neg hk]
          exact ih
        · simp only [hp, if_false, Bool.false_eq_true]
          exact ih

theorem objGet_filter_key (l : Obj) (p : String × Value → Bool) (k : String)
    (h : ∀ v, p (k, v) = true) : objGet (l.filter p) k = objGet l k := by
  induction l with
  | nil => simp [objGet]
  | cons kv rest ih =>
      obtain ⟨k0, v0⟩ := kv
      by_cases hk : k0 = k
      · subst hk
        rw [List.filter_cons, h v0]
        simp [objGet]
      · rw [List.filter_cons]
        by_cases hp : p (k0, v0) = true
        · simp only [hp, if_true]
          rw [objGet, if_neg hk, objGet, if_neg hk]
          exact ih
        · simp only [hp, if_false, Bool.false_eq_true]
          rw [ih, objGet, if_neg hk]

theorem objGet_objSpread_some (b e : Obj) (k : String) (v : Value)
    (h : objGet b k = some v) :
    objGet (objSpread b e) k = some ((objGet e k).getD v) := by
  unfold objSpread
  rw [objGet_append, objGet_mapVals (fun k v => (objGet e k).getD v), h]
  rfl

theorem objGet_objSpread_none (b e : Obj) (k : String) (h : objGet b k = none) :
    objGet (objSpread b e) k = objGet e k := by
  unfold objSpread
  rw [objGet_append, objGet_mapVals (fun k v => (objGet e k).getD v), h]
  show objGet (e.filter _) k = objGet e k
  exact objGet_filter_key e _ k (fun v => by rw [h]; rfl)

theorem listMapId {α : Type} (l : List α) (f : α → α) (h : ∀ x ∈ l, f x = x) :
    l.map f = l := by
  induction l with
  | nil => rfl
  | cons x rest ih =>
      rw [List.map_cons, h x (by simp), ih (fun x hx => h x (List.mem_cons_of_mem _ hx))]

theorem objGet_of_nodup_mem (a : Obj) (hnd : (a.map Prod.fst).Nodup)
    (k : String) (v : Value) (h : (k, v) ∈ a) : objGet a k = some v := by
  induction a with
  | nil => simp at h
  | cons kv rest ih =>
      obtain ⟨k0, v0⟩ := kv
      rw [List.map_cons, List.nodup_cons] at hnd
      rcases List.mem_cons.mp h with h1 | h1
      · obtain ⟨hk, hv⟩ := Prod.mk.injEq .. ▸ h1.symm
        rw [objGet, if_pos hk, hv]
      · by_cases hk : k0 = k
        · subst hk
          exact absurd (List.mem_map_of_mem Prod.fst h1) (by simpa using hnd.1)
        · rw [objGet, if_neg hk]
          exact ih hnd.2 h1

theorem objSpread_absorb (b a : Obj) (hnd : (a.map Prod.fst).Nodup) :
    objSpread (objSpread b a) a = objSpread b a := by
  have hget : ∀ kv ∈ objSpread b a, (objGet a kv.1).getD kv.2 = kv.2 := by
    intro kv hkv
    rcases List.mem_append.mp hkv with hm | hm
    · obtain ⟨kv0, hkv0, heq⟩ := List.mem_map.mp hm
      cases hga : objGet a kv0.1 with
      | none =>
          have h1 : kv.1 = kv0.1 := by rw [← heq]
          have h2 : kv.2 = kv0.2 := by rw [← heq]; simp [hga]
          rw [h1, h2, hga]
          rfl
      | some w =>
          have h1 : kv.1 = kv0.1 := by rw [← heq]
          have h2 : kv.2 = w := by rw [← heq]; simp [hga]
          rw [h1, h2, hga]
          rfl
    · have hma := (List.mem_filter.mp hm).1
      have : objGet a kv.1 = some kv.2 := objGet_of_nodup_mem a hnd kv.1 kv.2 (by
        simpa using hma)
      rw [this]
      rfl
  have hfilter : a.filter (fun kv => (objGet (objSpread b a) kv.1).isNone) = [] := by
    rw [List.filter_eq_nil_iff]
    intro kv hkv
    have hsome : objGet a kv.1 = some kv.2 :=
      objGet_of_nodup_mem a hnd kv.1 kv.2 (by simpa using hkv)
    cases hgb : objGet b kv.1 with
    | none =>
        rw [objGet_objSpread_none b a kv.1 hgb, hsome]
        simp
    | some w =>
        rw [objGet_objSpread_some b a kv.1 w hgb]
        simp
  show (objSpread b a).map _ ++ _ = objSpread b a
  rw [hfilter, List.append_nil]
  exact listMapId _ _ (fun kv hkv => by rw [hget kv hkv])

/-! ## The property-graph store and the adapter operations -/

structure Node where
  nid : Nat
  props : Obj
deriving DecidableEq, Repr

/-- A property-graph store: `User`, `Account`, `Session` and
`VerificationToken` nodes plus the `HAS_ACCOUNT` / `HAS_SESSION`
relationships, each a pair of the owning user's node id and the owned
node's id.  `nextId` feeds fresh node identities. -/
structure Store where
  users : List Node
  accounts : List Node
  sessions : List Node
  vtokens : List Node
  hasAccount : List (Nat × Nat)
  hasSession : List (Nat × Nat)
  nextId : Nat
deriving DecidableEq, Repr

def findNode (l : List Node) (nid : Nat) : Option Node :=
  l.find? (fun n => n.nid == nid)

/-- First-match column lookup on a result row (`result.someColumn`). -/
def rowGet : Row → String → Option RValue
  | [], _ => none
  | (k, v) :: rest, key => if k = key then some v else rowGet rest key

/-- `createUser(data)`: `const user = { id: crypto.randomUUID(), ...data }`
then `write(CREATE (u:User $data), user)`.  The write facade
outbound-coerces its parameters, so the stored node carries
`format.to(user)`, while the returned value is the pre-coercion `user`
object.  The generated UUID is passed in as `genId`. -/
def createUser (st : Store) (genId : String) (data : Obj) : Obj × Store :=
  let user := objSpread [("id", .vStr genId)] data
  (user,
   { st with
       users := st.users ++ [⟨st.nextId, toObj user⟩],
       nextId := st.nextId + 1 })

/-- `getUserByAccount({provider, providerAccountId})`: a read of
`MATCH (u:User)-[:HAS_ACCOUNT]->(a:Account { provider: $provider,
providerAccountId: $providerAccountId }) RETURN u{.*}`.  The read facade
passes its parameters uncoerced and decodes the first value of the first
returned row through `format.from`, or yields null when no row matched. -/
def getUserByAccount (st : Store) (provider paid : Value) : Option Obj :=
  let rows := st.hasAccount.filterMap (fun r =>
    match findNode st.users r.1, findNode st.accounts r.2 with
    | some u, some a =>
        if objGet a.props "provider" = some provider
            ∧ objGet a.props "providerAccountId" = some paid
        then some u.props else none
    | _, _ => none)
  match rows with
  | [] => none
  | p :: _ => some (fromObj p)

/-- `deleteUser(id)`: `write(MATCH (u:User { id: $data.id }) WITH u, u{.*}
AS properties DETACH DELETE u RETURN properties, { id })`.  Every matching
user node is deleted together with the relationships attached to it; the
`Account` and `Session` nodes at the far ends are not touched.  The
returned row binds the deleted user's property map under the aliased
column `properties`. -/
def deleteUser (st : Store) (id : Value) : Option Row × Store :=
  let idv := toValue id
  let deleted := st.users.filter (fun u : Node => decide (objGet u.props "id" = some idv))
  let delNids := deleted.map (fun u : Node => u.nid)
  let st' : Store :=
    { st with
        users := st.users.filter (fun u : Node => !(decide (objGet u.props "id" = some idv))),
        hasAccount := st.hasAccount.filter (fun r : Nat × Nat => !(decide (r.1 ∈ delNids))),
        hasSession := st.hasSession.filter (fun r : Nat × Nat => !(decide (r.1 ∈ delNids))) }
  match deleted with
  | [] => (none, st)
  | u :: _ => (some [("properties", .map u.props)], st')

/-- `updateUser(data)`: `(await write(MATCH (u:User { id: $data.id })
SET u += $data RETURN u{.*}, data)).u`.  The write facade outbound-coerces
`data` and the store merges the coerced fields into every matching user
node.  The returned row's only column is named by the un-aliased
expression text `u{.*}`, and the source then reads the property `u` of
that row object.  The outer `Option` is `none` when no row matched (there
the JavaScript `.u` access throws a `TypeError` on `null`); the inner
`Option` is the row's `u` property (`undefined`, i.e. `none`, when the row
has no such column). -/
def updateUser (st : Store) (data : Obj) : Option (Option RValue) × Store :=
  let d := toObj data
  match objGet d "id" with
  | none => (none, st)
  | some idv =>
      let matched := st.users.filter (fun u : Node => decide (objGet u.props "id" = some idv))
      match matched with
      | [] => (none, st)
      | u :: _ =>
          let st' : Store :=
            { st with
                users := st.users.map (fun w : Node =>
                  if objGet w.props "id" = some idv
                  then { w with props := objSpread w.props d } else w) }
          (some (rowGet [("u\x7b.*\x7d", .map (objSpread u.props d))] "u"), st')

/-- Relationship `MERGE`: adds only the pairs not already present. -/
def addMissing (cur new : List (Nat × Nat)) : List (Nat × Nat) :=
  cur ++ new.filter (fun r => decide (r ∉ cur))

/-- The `MERGE (a:Account {providerAccountId: …, provider: …})` key test. -/
def accMatch (kpv kav : Value) (b : Node) : Bool :=
  decide (objGet b.props "provider" = some kpv)
    && decide (objGet b.props "providerAccountId" = some kav)

/-- `linkAccount(data)`: destructures `const { userId, ...a } = data` and
writes `MATCH (u:User { id: $data.userId }) MERGE (a:Account
{ providerAccountId: $data.a.providerAccountId, provider: $data.a.provider })
SET a += $data.a MERGE (u)-[:HAS_ACCOUNT]->(a)`, returning `data`
unchanged.  The outbound coercion touches only the top level of
`{ userId, a }`, so the nested map `a` reaches the store as is.  If no
user matches, nothing runs.  `MERGE` reuses every account node whose two
key properties match, else creates one holding exactly those two
properties; `SET` then merges in all of `a`, and the relationship `MERGE`
adds only missing pairs.  `MERGE` on a null key property raises in Neo4j;
the model makes it a no-op (no claim reaches that case). -/
def linkAccount (st : Store) (data : Obj) : Obj × Store :=
  let a := data.filter (fun kv => decide (kv.1 ≠ "userId"))
  let mus :=
    match objGet data "userId" with
    | some v => st.users.filter (fun u : Node => decide (objGet u.props "id" = some (toValue v)))
    | none => []
  match objGet a "provider", objGet a "providerAccountId" with
  | some kpv, some kav =>
      if mus.isEmpty then (data, st)
      else
        let matched := st.accounts.filter (accMatch kpv kav)
        if matched.isEmpty then
          let nn : Node :=
            ⟨st.nextId, objSpread [("providerAccountId", kav), ("provider", kpv)] a⟩
          (data,
           { st with
               accounts := st.accounts ++ [nn],
               hasAccount := addMissing st.hasAccount (mus.map (fun u : Node => (u.nid, nn.nid))),
               nextId := st.nextId + 1 })
        else
          (data,
           { st with
               accounts := st.accounts.map (fun b : Node =>
                 if accMatch kpv kav b then { b with props := objSpread b.props a } else b),
               hasAccount := addMissing st.hasAccount
                 ((mus.map (fun u : Node =>
                    matched.map (fun b : Node => (u.nid, b.nid)))).flatten) })
  | _, _ => (data, st)

/-- The instant against which the Cypher comparison `s.expires <=
datetime($data.now)` can evaluate to a truth value: only a temporal
`expires` value compares with a `DateTime`.  In Cypher a String is
incomparable with a DateTime — the comparison evaluates to null, which
does not satisfy `WHERE` — and this adapter always stores `expires`
through the outbound coercion (`format.to` in `createSession` /
`updateSession`), i.e. as an ISO *string*, so for the adapter's own data
the predicate never holds and nothing is purged; a missing `expires`
likewise yields null. -/
def expiresInstant : Option Value → Option Int
  | some (.vDate t) => some t
  | _ => none

/-- The purge condition of `getSessionAndUser`'s `OPTIONAL MATCH … WHERE
s.expires <= datetime($data.now) DETACH DELETE s`: an owned session
carrying the token whose `expires` is a temporal value at or before
`now`.  Since the adapter stores `expires` as an ISO string, the
String-vs-DateTime comparison yields null and this condition is false on
every session the adapter itself wrote. -/
def sessExpired (st : Store) (tok : String) (now : Int) (s : Node) : Bool :=
  decide (objGet s.props "sessionToken" = some (Value.vStr tok))
    && (match expiresInstant (objGet s.props "expires") with
        | some e => decide (e ≤ now)
        | none => false)
    && st.hasSession.any (fun r => r.2 == s.nid && (findNode st.users r.1).isSome)

/-- Store after `getSessionAndUser`'s expiry purge. -/
def purgeExpired (st : Store) (tok : String) (now : Int) : Store :=
  let purged := (st.sessions.filter (sessExpired st tok now)).map (fun s : Node => s.nid)
  { st with
      sessions := st.sessions.filter (fun s : Node => !(sessExpired st tok now s)),
      hasSession := st.hasSession.filter (fun r : Nat × Nat => !(decide (r.2 ∈ purged))) }

/-- `getSessionAndUser(sessionToken)`: one write running
`OPTIONAL MATCH (u:User)-[:HAS_SESSION]->(s:Session { sessionToken:
$data.sessionToken }) WHERE s.expires <= datetime($data.now)
DETACH DELETE s WITH count(s) AS c MATCH
(u:User)-[:HAS_SESSION]->(s:Session { sessionToken: $data.sessionToken })
RETURN s { .*, userId: u.id } AS session, u{.*} AS user`
with `now = new Date().toISOString()` (the argument `now` is that
instant).  The purge deletes every owned session carrying the token whose
`expires` compares as a temporal value at or before `now` — never one the
adapter stored, since those hold ISO strings and the String-vs-DateTime
comparison yields null; the re-match returns the first remaining owned
session with its user, both decoded through `format.from`, else null
(the source also maps a half-missing row to null). -/
def getSessionAndUser (st : Store) (tok : String) (now : Int) :
    Option (Obj × Obj) × Store :=
  let st' := purgeExpired st tok now
  let rows := st'.hasSession.filterMap (fun r =>
    match findNode st'.users r.1, findNode st'.sessions r.2 with
    | some u, some s =>
        if objGet s.props "sessionToken" = some (Value.vStr tok) then
          some (objSpread s.props [("userId", (objGet u.props "id").getD .vNull)], u.props)
        else none
    | _, _ => none)
  match rows with
  | [] => (none, st')
  | (sp, up) :: _ => (some (fromObj sp, fromObj up), st')

/-- `deleteSession(sessionToken)`: `write(MATCH
(u:User)-[:HAS_SESSION]->(s:Session { sessionToken: $data.sessionToken })
WITH u, s, properties(s) AS properties DETACH DELETE s RETURN properties
{ .*, userId: u.id })`.  Deletes every owned session carrying the token;
the returned row's single column is named by the un-aliased projection
expression text. -/
def deleteSession (st : Store) (tok : String) : Option Row × Store :=
  let tokv : Value := .vStr tok
  let rows := st.hasSession.filterMap (fun r =>
    match findNode st.users r.1, findNode st.sessions r.2 with
    | some u, some s =>
        if objGet s.props "sessionToken" = some tokv then
          some (objSpread s.props [("userId", (objGet u.props "id").getD .vNull)], s.nid)
        else none
    | _, _ => none)
  let delNids := rows.map (fun p : Obj × Nat => p.2)
  let st' : Store :=
    { st with
        sessions := st.sessions.filter (fun s : Node => !(decide (s.nid ∈ delNids))),
        hasSession := st.hasSession.filter (fun r : Nat × Nat => !(decide (r.2 ∈ delNids))) }
  match rows with
  | [] => (none, st)
  | (props, _) :: _ =>
      (some [("properties \x7b .*, userId: u.id \x7d", .map props)], st')

/-- The `MATCH (v:VerificationToken {identifier: …, token: …})` key test. -/
def vtMatch (identifier token : String) (v : Node) : Bool :=
  decide (objGet v.props "identifier" = some (Value.vStr identifier))
    && decide (objGet v.props "token" = some (Value.vStr token))

/-- `useVerificationToken(data)`: `write(MATCH (v:VerificationToken
{ identifier: $data.identifier, token: $data.token }) WITH v, properties(v)
as properties DETACH DELETE v RETURN properties, data)` followed by
`format.from(result?.properties)`.  Every matching token node is deleted;
the first one's stored properties are decoded and returned, and the
result is null when nothing matched. -/
def useVerificationToken (st : Store) (identifier token : String) :
    Option Obj × Store :=
  let matched := st.vtokens.filter (vtMatch identifier token)
  let st' : Store :=
    { st with vtokens := st.vtokens.filter (fun v : Node => !(vtMatch identifier token v)) }
  match matched with
  | [] => (none, st')
  | v :: _ => (some (fromObj v.props), st')

/-! ## Claims about the type-coercion layer -/

instance (v : Value) : Decidable (CanonicalValue v) := by
  cases v <;> simp only [CanonicalValue] <;> infer_instance

/-- C2, counterexample: the claim quantifies over every record whose
non-timestamp fields hold arbitrary non-timestamp values.  A string field
whose value happens to match the ISO-8601 pattern and parse as an instant
is such a value, yet the round trip silently coerces it to a `Date`, so
the record does not come back field-for-field equal. -/
theorem format_roundtrip_counterexample :
    fromObj (toObj [("note", Value.vStr "2020-01-01T00:00:00.000Z")])
      ≠ [("note", Value.vStr "2020-01-01T00:00:00.000Z")] ∧
    fromObj (toObj [("note", Value.vStr "2020-01-01T00:00:00.000Z")])
      = [("note", Value.vDate 1577836800000)] := by
  decide

/-- C2 (amended): for every canonical record — timestamp fields hold
timestamps (in the ECMAScript `Date` range), all other fields hold
non-timestamp canonical values, which excludes store-native integers and,
as the counterexample forces, strings that match the ISO-8601 pattern and
parse as an instant — `fromStoreRepresentation(toStoreRepresentation(R))`
equals `R` field-for-field; timestamps come back as the same instant and
numbers as the same value. -/
theorem format_roundtrip_canonical (o : Obj)
    (h : ∀ kv ∈ o, CanonicalValue kv.2) : fromObj (toObj o) = o :=
  fromObj_toObj o h

theorem format_roundtrip_canonical_witness :
    fromObj (toObj [("emailVerified", Value.vDate 1577836800000),
        ("name", Value.vStr "Ada"), ("age", Value.vNum 41),
        ("flag", Value.vBool true), ("image", Value.vNull)])
      = [("emailVerified", Value.vDate 1577836800000),
         ("name", Value.vStr "Ada"), ("age", Value.vNum 41),
         ("flag", Value.vBool true), ("image", Value.vNull)] :=
  format_roundtrip_canonical _ (by decide)

/-- C7: inbound coercion of a store-native arbitrary-precision integer
yields the exact plain number precisely when the value lies in the safe
range `|i| ≤ 2^53 - 1`, and otherwise yields its exact decimal string —
`decimalVal` reading the string back as the original integer witnesses
that the string is never rounded or truncated. -/
theorem format_from_integer_exact (i : Int) :
    (fromValue (.vInt i) = .vNum (Rat.ofInt i) ↔ i.natAbs ≤ maxSafeInteger) ∧
    (maxSafeInteger < i.natAbs →
      fromValue (.vInt i) = .vStr (intDecimal i) ∧
      decimalVal (intDecimal i).data = some i) := by
  constructor
  · constructor
    · intro heq
      by_cases hs : i.natAbs ≤ maxSafeInteger
      · exact hs
      · rw [fromValue, if_neg hs] at heq
        exact absurd heq (by simp)
    · intro hs
      rw [fromValue, if_pos hs]
  · intro hs
    refine ⟨by rw [fromValue, if_neg (by omega)], ?_⟩
    show decimalVal (intDecimalC i) = some i
    exact decimalVal_intDecimalC i

theorem format_from_integer_exact_witness :
    fromValue (.vInt 7) = .vNum (Rat.ofInt 7) ∧
    fromValue (.vInt 9007199254740992) = .vStr (intDecimal 9007199254740992) ∧
    decimalVal (intDecimal 9007199254740992).data = some 9007199254740992 :=
  ⟨(format_from_integer_exact 7).1.mpr (by decide),
   ((format_from_integer_exact 9007199254740992).2 (by decide)).1,
   ((format_from_integer_exact 9007199254740992).2 (by decide)).2⟩

/-- C8: the inbound coercion is idempotent on whole objects — a second
application of `fromStoreRepresentation` changes no field — and a
timestamp, once produced from an ISO string, is a fixed point (a timestamp
is not a string, so neither the date-detection branch nor the integer
branch fires on it). -/
theorem format_from_idempotent :
    (∀ o : Obj, fromObj (fromObj o) = fromObj o) ∧
    (∀ t : Int, fromValue (.vDate t) = .vDate t) :=
  ⟨fromObj_idem, fun _ => rfl⟩

/-- C9: a string that matches `isoDateRE` but fails instant-parsing passes
through the inbound coercion unchanged; and a string is turned into a
timestamp exactly when it both matches the pattern and parses, the
timestamp being the parsed instant. -/
theorem format_from_iso_guard (s : String) :
    (testC s.data = true → jsDateParseC s.data = none →
      fromValue (.vStr s) = .vStr s) ∧
    (∀ t : Int, fromValue (.vStr s) = .vDate t →
      testC s.data = true ∧ jsDateParseC s.data = some t) := by
  constructor
  · intro _ hp
    simp [fromValue, hp]
  · intro t heq
    by_cases hb : (testC s.data && (jsDateParseC s.data).isSome) = true
    · rw [fromValue] at heq
      rw [if_pos hb] at heq
      obtain ⟨h1, h2⟩ := Bool.and_eq_true .. ▸ hb
      cases hp : jsDateParseC s.data with
      | none => rw [hp] at h2; exact absurd h2 (by simp)
      | some e =>
          refine ⟨h1, ?_⟩
          have hx : (jsDateParseC s.data).getD 0 = t := by simpa using heq
          rw [hp] at hx
          simp only [Option.getD_some] at hx
          rw [hx]
    · rw [fromValue, if_neg hb] at heq
      exact absurd heq (by simp)

theorem format_from_iso_guard_witness :
    testC ("2021-02-30T00:00:00Z" : String).data = true ∧
    jsDateParseC ("2021-02-30T00:00:00Z" : String).data = none ∧
    fromValue (.vStr "2021-02-30T00:00:00Z") = .vStr "2021-02-30T00:00:00Z" :=
  ⟨by decide, by decide,
   (format_from_iso_guard "2021-02-30T00:00:00Z").1 (by decide) (by decide)⟩

/-! ## Claims about the adapter operations -/

/-- C10: in `createUser`, `{ id: crypto.randomUUID(), ...data }` lets a
caller-supplied `id` in `data` override the freshly generated identifier:
the returned user is the input extended with the resulting id (the
generated one only when the input carries no `id` field), and the
persisted node stores the outbound coercion of exactly that object. -/
theorem createUser_id_override (st : Store) (genId : String) (data : Obj) :
    (createUser st genId data).1 = objSpread [("id", .vStr genId)] data ∧
    objGet (createUser st genId data).1 "id"
      = some ((objGet data "id").getD (.vStr genId)) ∧
    (∀ k, k ≠ "id" → objGet (createUser st genId data).1 k = objGet data k) ∧
    (createUser st genId data).2.users
      = st.users ++ [⟨st.nextId, toObj (createUser st genId data).1⟩] := by
  refine ⟨rfl, ?_, ?_, rfl⟩
  · show objGet (objSpread [("id", .vStr genId)] data) "id" = _
    rw [objGet_objSpread_some [("id", .vStr genId)] data "id" (.vStr genId)
      (by simp [objGet])]
  · intro k hk
    show objGet (objSpread [("id", .vStr genId)] data) k = _
    rw [objGet_objSpread_none [("id", .vStr genId)] data k
      (by rw [objGet, if_neg (fun h => hk h.symm)]; rfl)]

theorem createUser_id_override_witness :
    objGet (createUser ⟨[], [], [], [], [], [], 0⟩ "gen"
        [("id", Value.vStr "custom"), ("name", Value.vStr "B")]).1 "name"
      = some (Value.vStr "B") := by
  have h := (createUser_id_override ⟨[], [], [], [], [], [], 0⟩ "gen"
    [("id", Value.vStr "custom"), ("name", Value.vStr "B")]).2.2.1 "name" (by decide)
  rw [h]
  decide

/-- C4 (code bug, evaluated at the failing input): on a store holding the
user `{id: "u1", name: "A", email: "a@x.io"}`, `updateUser({id: "u1",
name: "X"})` merges correctly inside the store — `name` is overwritten,
the unsupplied `email` keeps its prior value — but the value returned to
the caller is `undefined` (modelled `some none`), not the post-update
record: the query returns the row column `u{.*}` (no `AS u` alias, unlike
the sibling queries), and the source reads `.u` from that row. -/
theorem updateUser_merge_returns_undefined :
    (updateUser ⟨[⟨0, [("id", Value.vStr "u1"), ("name", Value.vStr "A"),
          ("email", Value.vStr "a@x.io")]⟩], [], [], [], [], [], 1⟩
        [("id", Value.vStr "u1"), ("name", Value.vStr "X")]).1
      = some none ∧
    (updateUser ⟨[⟨0, [("id", Value.vStr "u1"), ("name", Value.vStr "A"),
          ("email", Value.vStr "a@x.io")]⟩], [], [], [], [], [], 1⟩
        [("id", Value.vStr "u1"), ("name", Value.vStr "X")]).2.users
      = [⟨0, [("id", Value.vStr "u1"), ("name", Value.vStr "X"),
          ("email", Value.vStr "a@x.io")]⟩] := by
  decide

/-- C1: with exactly one stored `VerificationToken` matching the pair
(identifier, token), the first `useVerificationToken` call returns that
token's stored field values (decoded through `format.from`) and removes
the node from the store, and a second call with the same pair against the
resulting store returns null. -/
theorem useVerificationToken_single_use
    (st : Store) (ident tok : String) (v : Node)
    (huniq : st.vtokens.filter (vtMatch ident tok) = [v]) :
    (useVerificationToken st ident tok).1 = some (fromObj v.props) ∧
    v ∉ (useVerificationToken st ident tok).2.vtokens ∧
    (useVerificationToken st ident tok).2.vtokens
      = st.vtokens.filter (fun w : Node => !(vtMatch ident tok w)) ∧
    (useVerificationToken (useVerificationToken st ident tok).2 ident tok).1 = none := by
  have hpv : vtMatch ident tok v = true := by
    have hv : v ∈ st.vtokens.filter (vtMatch ident tok) := by
      rw [huniq]
      exact List.mem_singleton_self v
    exact List.of_mem_filter hv
  have hcall : useVerificationToken st ident tok
      = (some (fromObj v.props),
         { st with vtokens := st.vtokens.filter (fun w : Node => !(vtMatch ident tok w)) }) := by
    unfold useVerificationToken
    rw [huniq]
  have hnil : ((st.vtokens.filter (fun w : Node => !(vtMatch ident tok w))).filter
      (vtMatch ident tok)) = [] := by
    rw [List.filter_eq_nil_iff]
    intro w hw
    have hnw := List.of_mem_filter hw
    simp only [Bool.not_eq_true'] at hnw
    simp [hnw]
  refine ⟨by rw [hcall], ?_, by rw [hcall], ?_⟩
  · rw [hcall]
    intro hmem
    have := List.of_mem_filter hmem
    rw [hpv] at this
    exact absurd this (by simp)
  · rw [hcall]
    unfold useVerificationToken
    simp only
    rw [hnil]

/-- A store holding one verification token, for the C1 witness. -/
def vtStore : Store :=
  ⟨[], [], [],
   [⟨0, [("identifier", Value.vStr "a@x.io"), ("token", Value.vStr "t9"),
      ("expires", Value.vStr "2020-01-01T00:00:00.000Z")]⟩], [], [], 1⟩

theorem useVerificationToken_single_use_witness :
    (useVerificationToken vtStore "a@x.io" "t9").1
      = some [("identifier", Value.vStr "a@x.io"), ("token", Value.vStr "t9"),
          ("expires", Value.vDate 1577836800000)] ∧
    (useVerificationToken (useVerificationToken vtStore "a@x.io" "t9").2 "a@x.io" "t9").1
      = none := by
  have h := useVerificationToken_single_use vtStore "a@x.io" "t9"
    ⟨0, [("identifier", Value.vStr "a@x.io"), ("token", Value.vStr "t9"),
      ("expires", Value.vStr "2020-01-01T00:00:00.000Z")]⟩ (by decide)
  refine ⟨?_, h.2.2.2⟩
  rw [h.1]
  decide

/-- C6: linking the same account payload twice.  With a unique matching
user, no pre-existing account under the (provider, providerAccountId) key,
a duplicate-free payload and a fresh next node id, the second identical
`linkAccount` call leaves the store exactly as the first call left it,
and that store holds exactly one account record under the key and exactly
one ownership relationship from the user to it. -/
theorem linkAccount_idempotent
    (st : Store) (data : Obj) (uid : String) (u : Node) (kpv kav : Value)
    (hdu : objGet data "userId" = some (Value.vStr uid))
    (hkp : objGet data "provider" = some kpv)
    (hka : objGet data "providerAccountId" = some kav)
    (hus : st.users.filter (fun w : Node =>
        decide (objGet w.props "id" = some (Value.vStr uid))) = [u])
    (hacc : st.accounts.filter (accMatch kpv kav) = [])
    (hnd : ((data.filter (fun kv => decide (kv.1 ≠ "userId"))).map Prod.fst).Nodup)
    (hfresh : ∀ r ∈ st.hasAccount, r.2 ≠ st.nextId) :
    (linkAccount (linkAccount st data).2 data).2 = (linkAccount st data).2 ∧
    ((linkAccount st data).2.accounts.filter (accMatch kpv kav)).length = 1 ∧
    ((linkAccount st data).2.hasAccount.filter
      (fun r => decide (r = (u.nid, st.nextId)))).length = 1 := by
  have hap : objGet (data.filter (fun kv => decide (kv.1 ≠ "userId"))) "provider"
      = some kpv := by
    rw [objGet_filter_key data _ "provider" (fun v => by simp)]
    exact hkp
  have haa : objGet (data.filter (fun kv => decide (kv.1 ≠ "userId"))) "providerAccountId"
      = some kav := by
    rw [objGet_filter_key data _ "providerAccountId" (fun v => by simp)]
    exact hka
  have hus' : st.users.filter (fun w : Node =>
      decide (objGet w.props "id" = some (toValue (Value.vStr uid)))) = [u] := hus
  have hnotin : (u.nid, st.nextId) ∉ st.hasAccount := fun hmem => hfresh _ hmem rfl
  have haddm : addMissing st.hasAccount [(u.nid, st.nextId)]
      = st.hasAccount ++ [(u.nid, st.nextId)] := by
    unfold addMissing
    simp [hnotin]
  have hcall1 : linkAccount st data
      = (data,
         { st with
             accounts := st.accounts
               ++ [⟨st.nextId, objSpread [("providerAccountId", kav), ("provider", kpv)]
                     (data.filter (fun kv => decide (kv.1 ≠ "userId")))⟩],
             hasAccount := st.hasAccount ++ [(u.nid, st.nextId)],
             nextId := st.nextId + 1 }) := by
    unfold linkAccount
    simp only [hdu, hap, haa, hus', hacc, List.isEmpty_cons, List.isEmpty_nil,
      Bool.false_eq_true, if_false, if_true, List.map_cons, List.map_nil]
    rw [haddm]
  set a := data.filter (fun kv => decide (kv.1 ≠ "userId")) with ha
  set nn : Node := ⟨st.nextId, objSpread [("providerAccountId", kav), ("provider", kpv)] a⟩
    with hnn
  have hmatch_nn : accMatch kpv kav nn = true := by
    unfold accMatch
    have h1 : objGet nn.props "provider" = some kpv := by
      show objGet (objSpread [("providerAccountId", kav), ("provider", kpv)] a) "provider"
        = some kpv
      rw [objGet_objSpread_some _ a "provider" kpv (by simp [objGet]), hap]
      rfl
    have h2 : objGet nn.props "providerAccountId" = some kav := by
      show objGet (objSpread [("providerAccountId", kav), ("provider", kpv)] a)
        "providerAccountId" = some kav
      rw [objGet_objSpread_some _ a "providerAccountId" kav (by simp [objGet]), haa]
      rfl
    simp [h1, h2]
  have hnomatch : ∀ b ∈ st.accounts, ¬(accMatch kpv kav b = true) :=
    List.filter_eq_nil_iff.mp hacc
  have hfilter1 : (st.accounts ++ [nn]).filter (accMatch kpv kav) = [nn] := by
    rw [List.filter_append, hacc]
    simp [hmatch_nn]
  have hsnd1 : (linkAccount st data).2
      = ({ st with
           accounts := st.accounts ++ [nn],
           hasAccount := st.hasAccount ++ [(u.nid, st.nextId)],
           nextId := st.nextId + 1 } : Store) := by
    rw [hcall1]
  have hmap : (st.accounts ++ [nn]).map (fun b : Node =>
      if accMatch kpv kav b then { b with props := objSpread b.props a } else b)
      = st.accounts ++ [nn] := by
    rw [List.map_append]
    congr 1
    · exact listMapId _ _ (fun b hb => by
        rw [if_neg (by simpa using hnomatch b hb)])
    · show [if accMatch kpv kav nn then
          ({ nn with props := objSpread nn.props a } : Node) else nn] = [nn]
      rw [if_pos hmatch_nn]
      have habs : objSpread nn.props a = nn.props := by
        show objSpread (objSpread [("providerAccountId", kav), ("provider", kpv)] a) a
          = objSpread [("providerAccountId", kav), ("provider", kpv)] a
        exact objSpread_absorb _ a hnd
      rw [habs]
  have hrels : addMissing (st.hasAccount ++ [(u.nid, st.nextId)]) [(u.nid, st.nextId)]
      = st.hasAccount ++ [(u.nid, st.nextId)] := by
    have hpair : ((u.nid, st.nextId) : Nat × Nat)
        ∈ st.hasAccount ++ [(u.nid, st.nextId)] := by simp
    unfold addMissing
    simp [hpair]
  refine ⟨?_, ?_, ?_⟩
  · -- second call leaves the store unchanged
    rw [hsnd1]
    unfold linkAccount
    dsimp only
    simp only [hdu, hap, haa, hus', hfilter1, List.isEmpty_cons, Bool.false_eq_true,
      if_false, List.map_cons, List.map_nil, List.flatten_cons, List.flatten_nil,
      List.append_nil]
    rw [hmap, hrels]
  · -- exactly one account under the key
    rw [hsnd1]
    dsimp only
    rw [hfilter1]
    rfl
  · -- exactly one ownership relationship
    rw [hsnd1]
    dsimp only
    rw [List.filter_append]
    have hz : st.hasAccount.filter (fun r => decide (r = (u.nid, st.nextId))) = [] := by
      rw [List.filter_eq_nil_iff]
      intro r hr hre
      simp only [decide_eq_true_eq] at hre
      exact hfresh r hr (by rw [hre])
    rw [hz]
    simp

theorem findNode_spec (l : List Node) (nid : Nat) (n : Node)
    (h : findNode l nid = some n) : n ∈ l ∧ n.nid = nid := by
  unfold findNode at h
  refine ⟨List.mem_of_find?_eq_some h, ?_⟩
  have := List.find?_some h
  simpa using this

theorem getUserByAccount_none (st2 : Store) (prov paid : Value)
    (h : ∀ r ∈ st2.hasAccount, ∀ b : Node, findNode st2.accounts r.2 = some b →
      ¬(objGet b.props "provider" = some prov
        ∧ objGet b.props "providerAccountId" = some paid)) :
    getUserByAccount st2 prov paid = none := by
  unfold getUserByAccount
  have hrows : st2.hasAccount.filterMap (fun r =>
      match findNode st2.users r.1, findNode st2.accounts r.2 with
      | some u, some a =>
          if objGet a.props "provider" = some prov
              ∧ objGet a.props "providerAccountId" = some paid
          then some u.props else none
      | _, _ => none) = [] := by
    rw [List.filterMap_eq_nil_iff]
    intro r hr
    cases hfu : findNode st2.users r.1 with
    | none => simp [hfu]
    | some w =>
        cases hfa : findNode st2.accounts r.2 with
        | none => simp [hfu, hfa]
        | some b =>
            simp only [hfu, hfa]
            rw [if_neg (h r hr b hfa)]
  rw [hrows]

theorem getSessionAndUser_fst_none (st2 : Store) (tok : String) (now : Int)
    (h : ∀ r ∈ (purgeExpired st2 tok now).hasSession, ∀ s' : Node,
      findNode (purgeExpired st2 tok now).sessions r.2 = some s' →
      objGet s'.props "sessionToken" ≠ some (Value.vStr tok)) :
    (getSessionAndUser st2 tok now).1 = none := by
  unfold getSessionAndUser
  dsimp only
  have hrows : (purgeExpired st2 tok now).hasSession.filterMap (fun r =>
      match findNode (purgeExpired st2 tok now).users r.1,
            findNode (purgeExpired st2 tok now).sessions r.2 with
      | some u, some s =>
          if objGet s.props "sessionToken" = some (Value.vStr tok) then
            some (objSpread s.props [("userId", (objGet u.props "id").getD .vNull)], u.props)
          else none
      | _, _ => none) = [] := by
    rw [List.filterMap_eq_nil_iff]
    intro r hr
    cases hfu : findNode (purgeExpired st2 tok now).users r.1 with
    | none => simp [hfu]
    | some w =>
        cases hfs : findNode (purgeExpired st2 tok now).sessions r.2 with
        | none => simp [hfu, hfs]
        | some s' =>
            simp only [hfu, hfs]
            rw [if_neg (h r hr s' hfs)]
  rw [hrows]

theorem deleteSession_fst_none (st2 : Store) (tok : String)
    (h : ∀ r ∈ st2.hasSession, ∀ s' : Node, findNode st2.sessions r.2 = some s' →
      objGet s'.props "sessionToken" ≠ some (Value.vStr tok)) :
    (deleteSession st2 tok).1 = none := by
  unfold deleteSession
  dsimp only
  have hrows : st2.hasSession.filterMap (fun r =>
      match findNode st2.users r.1, findNode st2.sessions r.2 with
      | some u, some s =>
          if objGet s.props "sessionToken" = some (Value.vStr tok) then
            some (objSpread s.props [("userId", (objGet u.props "id").getD .vNull)], s.nid)
          else none
      | _, _ => none) = [] := by
    rw [List.filterMap_eq_nil_iff]
    intro r hr
    cases hfu : findNode st2.users r.1 with
    | none => simp [hfu]
    | some w =>
        cases hfs : findNode st2.sessions r.2 with
        | none => simp [hfu, hfs]
        | some s' =>
            simp only [hfu, hfs]
            rw [if_neg (h r hr s' hfs)]
  rw [hrows]

theorem purgeExpired_hasSession_sub (st2 : Store) (tok : String) (now : Int) :
    ∀ r ∈ (purgeExpired st2 tok now).hasSession, r ∈ st2.hasSession := by
  intro r hr
  unfold purgeExpired at hr
  dsimp only at hr
  exact List.mem_of_mem_filter hr

theorem purgeExpired_sessions_sub (st2 : Store) (tok : String) (now : Int) :
    ∀ s ∈ (purgeExpired st2 tok now).sessions, s ∈ st2.sessions := by
  intro s hs
  unfold purgeExpired at hs
  dsimp only at hs
  exact List.mem_of_mem_filter hs

/-- C3 (amended): `deleteUser` removes every matching user node and every
relationship attached to it (`DETACH DELETE u`), so all N + M subsequent
lookups — `getUserByAccount` on any owned account's key and
`getSessionAndUser` / `deleteSession` on any owned session's token —
return null; the `Account` and `Session` nodes themselves, however, stay
in the store (see the counterexample).  The per-lookup hypotheses are the
store's uniqueness invariants: each account/session has a single owner and
its lookup key identifies a single node. -/
theorem deleteUser_detaches_and_lookups_null
    (st : Store) (uid : String) (u : Node)
    (hu : u ∈ st.users) (hid : objGet u.props "id" = some (Value.vStr uid)) :
    (∀ w ∈ (deleteUser st (Value.vStr uid)).2.users,
      objGet w.props "id" ≠ some (Value.vStr uid)) ∧
    (∀ r ∈ (deleteUser st (Value.vStr uid)).2.hasAccount, r.1 ≠ u.nid) ∧
    (∀ r ∈ (deleteUser st (Value.vStr uid)).2.hasSession, r.1 ≠ u.nid) ∧
    (∀ (a : Node) (prov paid : Value),
      (u.nid, a.nid) ∈ st.hasAccount →
      (∀ r ∈ st.hasAccount, r.2 = a.nid → r.1 = u.nid) →
      (∀ b ∈ st.accounts, objGet b.props "provider" = some prov →
        objGet b.props "providerAccountId" = some paid → b.nid = a.nid) →
      getUserByAccount (deleteUser st (Value.vStr uid)).2 prov paid = none) ∧
    (∀ (s : Node) (tk : String),
      (u.nid, s.nid) ∈ st.hasSession →
      (∀ r ∈ st.hasSession, r.2 = s.nid → r.1 = u.nid) →
      (∀ w ∈ st.sessions, objGet w.props "sessionToken" = some (Value.vStr tk) →
        w.nid = s.nid) →
      (∀ now, (getSessionAndUser (deleteUser st (Value.vStr uid)).2 tk now).1 = none) ∧
      (deleteSession (deleteUser st (Value.vStr uid)).2 tk).1 = none) := by
  have hu' : u ∈ st.users.filter (fun w : Node =>
      decide (objGet w.props "id" = some (toValue (Value.vStr uid)))) :=
    List.mem_filter.mpr ⟨hu, by simp [toValue, hid]⟩
  cases hd : st.users.filter (fun w : Node =>
      decide (objGet w.props "id" = some (toValue (Value.vStr uid)))) with
  | nil =>
      rw [hd] at hu'
      exact absurd hu' (by simp)
  | cons w ws =>
      have hsnd : (deleteUser st (Value.vStr uid)).2
          = { st with
              users := st.users.filter (fun w' : Node =>
                !(decide (objGet w'.props "id" = some (toValue (Value.vStr uid))))),
              hasAccount := st.hasAccount.filter (fun r : Nat × Nat =>
                !(decide (r.1 ∈ (w :: ws).map (fun n : Node => n.nid)))),
              hasSession := st.hasSession.filter (fun r : Nat × Nat =>
                !(decide (r.1 ∈ (w :: ws).map (fun n : Node => n.nid)))) } := by
        unfold deleteUser
        dsimp only
        rw [hd]
      have hunid : u.nid ∈ (w :: ws).map (fun n : Node => n.nid) := by
        rw [hd] at hu'
        exact List.mem_map_of_mem _ hu'
      have hnotin : ∀ r : Nat × Nat,
          r ∈ st.hasAccount.filter (fun r : Nat × Nat =>
            !(decide (r.1 ∈ (w :: ws).map (fun n : Node => n.nid)))) ∨
          r ∈ st.hasSession.filter (fun r : Nat × Nat =>
            !(decide (r.1 ∈ (w :: ws).map (fun n : Node => n.nid)))) → r.1 ≠ u.nid := by
        intro r hr
        have hp : (!(decide (r.1 ∈ (w :: ws).map (fun n : Node => n.nid)))) = true := by
          rcases hr with hr | hr
          · have h0 := List.of_mem_filter hr
            exact h0
          · have h0 := List.of_mem_filter hr
            exact h0
        simp only [Bool.not_eq_true', decide_eq_false_iff_not] at hp
        intro req
        exact hp (req ▸ hunid)
      refine ⟨?_, ?_, ?_, ?_, ?_⟩
      · intro w' hw'
        rw [hsnd] at hw'
        have hw2 : w' ∈ st.users.filter (fun w' : Node =>
            !(decide (objGet w'.props "id" = some (toValue (Value.vStr uid))))) := hw'
        have hp := List.of_mem_filter hw2
        simp only [Bool.not_eq_true', decide_eq_false_iff_not] at hp
        exact fun hcon => hp hcon
      · intro r hr
        rw [hsnd] at hr
        exact hnotin r (Or.inl hr)
      · intro r hr
        rw [hsnd] at hr
        exact hnotin r (Or.inr hr)
      · intro a prov paid harel haowner hauniq
        rw [hsnd]
        apply getUserByAccount_none
        intro r hr b hfb
        rintro ⟨hbp, hba⟩
        have hr2 : r ∈ st.hasAccount.filter (fun r : Nat × Nat =>
            !(decide (r.1 ∈ (w :: ws).map (fun n : Node => n.nid)))) := hr
        have hb := findNode_spec st.accounts r.2 b hfb
        have hnid : b.nid = a.nid := hauniq b hb.1 hbp hba
        have hrmem : r ∈ st.hasAccount := List.mem_of_mem_filter hr2
        have h1 : r.1 = u.nid := haowner r hrmem (by rw [← hnid, hb.2])
        exact hnotin r (Or.inl hr2) h1
      · intro s tk hsrel hsowner hsuniq
        constructor
        · intro now
          rw [hsnd]
          apply getSessionAndUser_fst_none
          intro r hr s' hfs' htok
          have hrA : r ∈ st.hasSession.filter (fun r : Nat × Nat =>
              !(decide (r.1 ∈ (w :: ws).map (fun n : Node => n.nid)))) :=
            purgeExpired_hasSession_sub _ tk now r hr
          have hs'spec := findNode_spec _ r.2 s' hfs'
          have hs'A0 := purgeExpired_sessions_sub _ tk now s' hs'spec.1
          have hs'A : s' ∈ st.sessions := hs'A0
          have hnid : s'.nid = s.nid := hsuniq s' hs'A htok
          have hrmem : r ∈ st.hasSession := List.mem_of_mem_filter hrA
          have h1 : r.1 = u.nid := hsowner r hrmem (by rw [← hs'spec.2, hnid])
          exact hnotin r (Or.inr hrA) h1
        · rw [hsnd]
          apply deleteSession_fst_none
          intro r hr s' hfs' htok
          have hrA : r ∈ st.hasSession.filter (fun r : Nat × Nat =>
              !(decide (r.1 ∈ (w :: ws).map (fun n : Node => n.nid)))) := hr
          have hs'spec := findNode_spec st.sessions r.2 s' hfs'
          have hnid : s'.nid = s.nid := hsuniq s' hs'spec.1 htok
          have hrmem : r ∈ st.hasSession := List.mem_of_mem_filter hrA
          have h1 : r.1 = u.nid := hsowner r hrmem (by rw [← hs'spec.2, hnid])
          exact hnotin r (Or.inr hrA) h1

/-- A store with one user owning one account and one session. -/
def delStore : Store :=
  ⟨[⟨0, [("id", Value.vStr "u1")]⟩],
   [⟨1, [("provider", Value.vStr "github"), ("providerAccountId", Value.vStr "42")]⟩],
   [⟨2, [("sessionToken", Value.vStr "tok")]⟩],
   [], [(0, 1)], [(0, 2)], 3⟩

/-- C3, counterexample to the claim as stated: `deleteUser` does NOT
"remove all N Accounts and M Sessions owned by that user" — `DETACH
DELETE u` deletes the user node and its relationships, but the account
and session nodes themselves survive in the store; only the ownership
relationships are gone (which is why the lookups still return null). -/
theorem deleteUser_cascade_counterexample :
    (deleteUser delStore (Value.vStr "u1")).2.users = [] ∧
    (deleteUser delStore (Value.vStr "u1")).2.hasAccount = [] ∧
    (deleteUser delStore (Value.vStr "u1")).2.hasSession = [] ∧
    (deleteUser delStore (Value.vStr "u1")).2.accounts
      = [⟨1, [("provider", Value.vStr "github"),
              ("providerAccountId", Value.vStr "42")]⟩] ∧
    (deleteUser delStore (Value.vStr "u1")).2.sessions
      = [⟨2, [("sessionToken", Value.vStr "tok")]⟩] := by
  decide

theorem deleteUser_detaches_and_lookups_null_witness :
    (∀ w ∈ (deleteUser delStore (Value.vStr "u1")).2.users,
      objGet w.props "id" ≠ some (Value.vStr "u1")) ∧
    (∀ r ∈ (deleteUser delStore (Value.vStr "u1")).2.hasAccount, r.1 ≠ 0) ∧
    (∀ r ∈ (deleteUser delStore (Value.vStr "u1")).2.hasSession, r.1 ≠ 0) ∧
    (∀ (a : Node) (prov paid : Value),
      ((0 : Nat), a.nid) ∈ delStore.hasAccount →
      (∀ r ∈ delStore.hasAccount, r.2 = a.nid → r.1 = 0) →
      (∀ b ∈ delStore.accounts, objGet b.props "provider" = some prov →
        objGet b.props "providerAccountId" = some paid → b.nid = a.nid) →
      getUserByAccount (deleteUser delStore (Value.vStr "u1")).2 prov paid = none) ∧
    (∀ (s : Node) (tk : String),
      ((0 : Nat), s.nid) ∈ delStore.hasSession →
      (∀ r ∈ delStore.hasSession, r.2 = s.nid → r.1 = 0) →
      (∀ w ∈ delStore.sessions, objGet w.props "sessionToken" = some (Value.vStr tk) →
        w.nid = s.nid) →
      (∀ now, (getSessionAndUser (deleteUser delStore (Value.vStr "u1")).2 tk now).1 = none) ∧
      (deleteSession (deleteUser delStore (Value.vStr "u1")).2 tk).1 = none) :=
  deleteUser_detaches_and_lookups_null delStore "u1" ⟨0, [("id", Value.vStr "u1")]⟩
    (by decide) (by decide)

/-- A one-user store for exercising `linkAccount` twice. -/
def linkStore : Store :=
  ⟨[⟨0, [("id", Value.vStr "u1")]⟩], [], [], [], [], [], 1⟩

/-- A full `linkAccount` payload for that user. -/
def linkData : Obj :=
  [("userId", Value.vStr "u1"), ("provider", Value.vStr "gitlab"),
   ("providerAccountId", Value.vStr "88")]

theorem linkAccount_idempotent_witness :
    (linkAccount (linkAccount linkStore linkData).2 linkData).2
      = (linkAccount linkStore linkData).2 ∧
    ((linkAccount linkStore linkData).2.accounts.filter
      (accMatch (Value.vStr "gitlab") (Value.vStr "88"))).length = 1 ∧
    ((linkAccount linkStore linkData).2.hasAccount.filter
      (fun r => decide (r = (0, 1)))).length = 1 :=
  linkAccount_idempotent linkStore linkData "u1" ⟨0, [("id", Value.vStr "u1")]⟩
    (Value.vStr "gitlab") (Value.vStr "88")
    (by decide) (by decide) (by decide) (by decide) (by decide) (by decide) (by decide)

/-- A store with one user owning one session whose stored `expires` is —
as `createSession` writes it through the outbound coercion — the ISO
string of instant 1577836800000 (2020-01-01T00:00:00.000Z). -/
def sessStore : Store :=
  ⟨[⟨0, [("id", Value.vStr "u1")]⟩], [],
   [⟨1, [("sessionToken", Value.vStr "tok"),
         ("expires", Value.vStr "2020-01-01T00:00:00.000Z")]⟩],
   [], [], [(0, 1)], 2⟩

/-- C5 (code bug, evaluated at the failing input): the stored `expires`
of the session in `sessStore` denotes instant 1577836800000, and
`getSessionAndUser` is called at the strictly later instant 1609459200000
(2021-01-01T00:00:00Z), so the session is expired — yet the call still
returns the session together with its user and leaves the store
unchanged.  The query's `WHERE s.expires <= datetime($data.now)` compares
the stored ISO *string* with a DateTime, which in Cypher yields null, so
the conditional `DETACH DELETE s` never fires; the claim that an expired
session is deleted and the lookup yields `{session: null, user: null}`
is false of the program. -/
theorem getSessionAndUser_expired_not_purged :
    jsDateParseC ("2020-01-01T00:00:00.000Z" : String).data = some 1577836800000 ∧
    (1577836800000 : Int) < 1609459200000 ∧
    (getSessionAndUser sessStore "tok" 1609459200000).1
      = some ([("sessionToken", Value.vStr "tok"),
               ("expires", Value.vDate 1577836800000),
               ("userId", Value.vStr "u1")],
              [("id", Value.vStr "u1")]) ∧
    (getSessionAndUser sessStore "tok" 1609459200000).2 = sessStore := by
  decide

end NeoAdapter
